import Mathlib

/-!
Verification of the template reassignment core (reassign.c, ef.c) of the
EcoliTyper serotypefinder kma module.  The C code is shallowly embedded:
packed two-bit DNA is modelled through its per-position base values (the
packed 64-bit words are recovered by the window function getK), stateful
code is modelled by explicit state passing, and the one loop of the source
that can diverge is threaded with fuel, an exhausted fuel returning none.
-/

namespace EcoliTyper

/-- CompDNA (compdna.h): a two-bit packed DNA sequence.  The packed 64-bit
word array is modelled by the per-position base list seq (values 0..3;
reading beyond the end yields 0, matching the invariant that bits beyond
seqlen in the packed words are zero), together with the list N of ambiguous
positions (the C code stores the count in N[0] and the positions after it;
the count is the list length here). -/
structure CompDNA where
  seq : List Nat
  N : List Int
deriving Repr, DecidableEq

/-- Nucleotide count (CompDNA.seqlen field, tied to the data by invariant). -/
def CompDNA.seqlen (c : CompDNA) : Nat := c.seq.length

/-- Base at a position; zero beyond the end, as the packed words are
zero-padded past seqlen. -/
def CompDNA.base (c : CompDNA) (i : Nat) : Nat := c.seq.getD i 0

/-- Well-formedness carried by every CompDNA the C code builds: bases are
two-bit values and N is a strictly ascending list of in-range positions. -/
def CompDNA.WF (c : CompDNA) : Prop :=
  (∀ b ∈ c.seq, b < 4) ∧ c.N.Pairwise (· < ·) ∧ ∀ x ∈ c.N, 0 ≤ x ∧ x < (c.seqlen : Int)

instance (c : CompDNA) : Decidable c.WF := by
  unfold CompDNA.WF; infer_instance

/-- getKmer_macro (stdnuc.h): the k-base window of a base function starting
at position pos, packed two bits per base with the high-order base first.
The macro extracts (64 - shifter)/2 bases out of the word array; the base
count is taken as the argument here. -/
def getK (f : Nat → Nat) (pos k : Nat) : Nat :=
  (List.range k).foldl (fun a i => 4 * a + f (pos + i)) 0

/-- Search loop of reassign_getoffset, descending on the remaining position
count d = seqlen - o so that the recursion is structural: scans positions
o, o+1, ... while d is positive. -/
def getoffsetGo (c : CompDNA) (kmer : Nat) : Nat → Nat → Int
  | _, 0 => -1
  | o, d + 1 => if getK c.base o 32 = kmer then (o : Int) else getoffsetGo c kmer (o + 1) d

/-- Search loop of reassign_getoffset: the first position o at or after the
given one and below seqlen whose 32-base window equals kmer, else -1. -/
def getoffsetAux (c : CompDNA) (kmer : Nat) (o : Nat) : Int :=
  getoffsetGo c kmer o (c.seqlen - o)

/-- reassign_getoffset (reassign.c): scans the consensus for the first offset
at or after the given one whose 32-base window equals kmer.  The callers only
pass non-negative offsets. -/
def reassign_getoffset (c : CompDNA) (kmer : Nat) (offset : Int) : Int :=
  getoffsetAux c kmer offset.toNat

/-- Full-word comparison loop of reassign_cmpseqs: w chunks of 32 bases,
candidate word against consensus window, returning the sign of the first
difference. -/
def cmpWords (q t : Nat → Nat) (w o tpos : Nat) : Int :=
  match w with
  | 0 => 0
  | w' + 1 =>
    let kmer := getK q o 32
    let tw := getK t tpos 32
    if tw ≠ kmer then (if tw < kmer then -1 else 1)
    else cmpWords q t w' (o + 32) (tpos + 32)

/-- Remainder comparison of reassign_cmpseqs: the last m = len mod 32
candidate bases, shifted to the high bits of the trailing word (the C
kmer <<= complen shift becomes multiplication by 4^(32-m)), against the
candidate's final word at base position W. -/
def cmpRem (q t : Nat → Nat) (m W o : Nat) : Int :=
  if getK t W 32 ≠ getK q (o + W) m * 4 ^ (32 - m) then
    (if getK t W 32 < getK q (o + W) m * 4 ^ (32 - m) then -1 else 1)
  else 0

/-- reassign_cmpseqs (reassign.c): compares the candidate (target) word array
against the consensus window at the given offset.  With complen =
(len >> 5) + (len mod 32 == 0 ? 0 : 1) the C while(--complen) loop compares
complen - 1 full words, and the remainder branch then compares the last
len mod 32 bases when that remainder is nonzero (in that branch
complen - 1 = len / 32, giving the word base position 32 * (len / 32)). -/
def reassign_cmpseqs (q t : Nat → Nat) (len : Nat) (offset : Int) : Int :=
  if offset < 0 then -1
  else
    if cmpWords q t (len / 32 + (if len % 32 = 0 then 0 else 1) - 1) offset.toNat 0 ≠ 0 then
      cmpWords q t (len / 32 + (if len % 32 = 0 then 0 else 1) - 1) offset.toNat 0
    else if len % 32 ≠ 0 then
      cmpRem q t (len % 32) (32 * (len / 32)) offset.toNat
    else 0

/-- reassign_testNs (reassign.c): walks the N list, stopping at the first
position at or beyond e, and returns the first position x with
start < x < e; returns 0 when no position blocks. -/
def reassign_testNs (N : List Int) (start e : Int) : Int :=
  match N with
  | [] => 0
  | x :: xs => if x < e then (if start < x then x else reassign_testNs xs start e) else 0

/-- N-feasibility scan at the top of reassign_matchseqs: walks the N list;
none models the early -1 exit, some gives the start position the seek loop
begins from. -/
def msPrecheck (N : List Int) (qlen clen : Int) (start : Int) : Option Int :=
  match N with
  | [] => some start
  | x :: xs =>
    if qlen ≤ x - start then some start
    else if clen - x < qlen then none
    else msPrecheck xs qlen clen (x + 1)

/-- Seek step inside the loop of reassign_matchseqs: the value the loop
variable start takes after the reassign_getoffset call — the found offset
when the seek succeeded, otherwise qseq->seqlen. -/
def msSeek (c q : CompDNA) (s1 : Int) : Int :=
  if 0 ≤ reassign_getoffset c (getK q.base 0 32) s1 then
    reassign_getoffset c (getK q.base 0 32) s1
  else (q.seqlen : Int)

/-- Seek-match-extend loop of reassign_matchseqs.  The C loop
while(match and 0 <= ++start and qseq->seqlen <= consensus->seqlen - start)
can fail to terminate (a failed seek resets start to qseq->seqlen each
round), so fuel is threaded; none models divergence.  The start argument
holds the value before the ++ of the loop condition. -/
def msLoop (c q : CompDNA) : Nat → Int → Int → Option Int
  | 0, _, _ => none
  | fuel + 1, start, mtch =>
    if mtch ≠ 0 ∧ 0 ≤ start + 1 ∧ (q.seqlen : Int) ≤ (c.seqlen : Int) - (start + 1) then
      if reassign_cmpseqs c.base q.base q.seqlen (msSeek c q (start + 1)) = 0 then
        if reassign_testNs c.N (msSeek c q (start + 1))
            (msSeek c q (start + 1) + (q.seqlen : Int)) = 0 then
          msLoop c q fuel (msSeek c q (start + 1)) 0
        else
          msLoop c q fuel
            (reassign_testNs c.N (msSeek c q (start + 1))
              (msSeek c q (start + 1) + (q.seqlen : Int)))
            (reassign_testNs c.N (msSeek c q (start + 1))
              (msSeek c q (start + 1) + (q.seqlen : Int)))
      else
        msLoop c q fuel (msSeek c q (start + 1))
          (reassign_cmpseqs c.base q.base q.seqlen (msSeek c q (start + 1)))
    else some (if mtch ≠ 0 then -1 else start)

/-- reassign_matchseqs (reassign.c): some offset of a match, some -1 for no
match, none when the seek loop fuel runs out (the C loop can diverge). -/
def reassign_matchseqs (fuel : Nat) (c q : CompDNA) : Option Int :=
  match msPrecheck c.N (q.seqlen : Int) (c.seqlen : Int) 0 with
  | none => some (-1)
  | some start => msLoop c q fuel (start - 1) 1

/-- reassign_matchseqs_rc (reassign.c): when the forward match value is
nonzero the reverse-complement consensus is tried and its result returned;
a zero forward value returns 0. -/
def reassign_matchseqs_rc (fuel : Nat) (c c_rc q : CompDNA) : Option Int :=
  match reassign_matchseqs fuel c q with
  | none => none
  | some r => if r ≠ 0 then reassign_matchseqs fuel c_rc q else some 0

/-! ### Basic lemmas about the packed representation -/

theorem CompDNA.base_lt_four {c : CompDNA} (h : c.WF) (i : Nat) : c.base i < 4 := by
  unfold CompDNA.base
  rcases Nat.lt_or_ge i c.seq.length with hi | hi
  · rw [List.getD_eq_getElem _ _ hi]
    exact h.1 _ (List.getElem_mem hi)
  · rw [List.getD_eq_default _ _ (by omega)]; omega

theorem CompDNA.base_eq_zero_of_ge {c : CompDNA} {i : Nat} (h : c.seqlen ≤ i) :
    c.base i = 0 := by
  unfold CompDNA.base
  exact List.getD_eq_default _ _ h

theorem getK_zero (f : Nat → Nat) (pos : Nat) : getK f pos 0 = 0 := rfl

theorem getK_succ (f : Nat → Nat) (pos k : Nat) :
    getK f pos (k + 1) = 4 * getK f pos k + f (pos + k) := by
  unfold getK
  rw [List.range_succ, List.foldl_append]
  rfl

theorem getK_congr {f g : Nat → Nat} {p p' : Nat} (k : Nat)
    (h : ∀ i < k, f (p + i) = g (p' + i)) : getK f p k = getK g p' k := by
  induction k with
  | zero => rfl
  | succ k ih =>
    rw [getK_succ, getK_succ, ih (fun i hi => h i (by omega)), h k (by omega)]

theorem getK_lt {f : Nat → Nat} {p k : Nat} (h : ∀ i < k, f (p + i) < 4) :
    getK f p k < 4 ^ k := by
  induction k with
  | zero => simp [getK_zero]
  | succ k ih =>
    rw [getK_succ, pow_succ]
    have h1 := ih (fun i hi => h i (by omega))
    have h2 := h k (by omega)
    omega

theorem getK_inj {f g : Nat → Nat} {p p' : Nat} (k : Nat)
    (hf : ∀ i < k, f (p + i) < 4) (hg : ∀ i < k, g (p' + i) < 4)
    (h : getK f p k = getK g p' k) : ∀ i < k, f (p + i) = g (p' + i) := by
  induction k with
  | zero => omega
  | succ k ih =>
    rw [getK_succ, getK_succ] at h
    have hfk := hf k (by omega)
    have hgk := hg k (by omega)
    have hpre : getK f p k = getK g p' k ∧ f (p + k) = g (p' + k) := by omega
    intro i hi
    rcases Nat.lt_or_ge i k with hik | hik
    · exact ih (fun j hj => hf j (by omega)) (fun j hj => hg j (by omega)) hpre.1 i hik
    · have : i = k := by omega
      subst this; exact hpre.2

theorem getK_split (f : Nat → Nat) (pos a b : Nat) :
    getK f pos (a + b) = getK f pos a * 4 ^ b + getK f (pos + a) b := by
  induction b with
  | zero => simp [getK_zero]
  | succ b ih =>
    have : a + (b + 1) = (a + b) + 1 := by omega
    rw [this, getK_succ, ih, getK_succ, pow_succ]
    have : pos + (a + b) = pos + a + b := by omega
    rw [this]; ring

theorem getK_eq_zero {f : Nat → Nat} {p k : Nat} (h : ∀ i < k, f (p + i) = 0) :
    getK f p k = 0 := by
  induction k with
  | zero => rfl
  | succ k ih =>
    rw [getK_succ, ih (fun i hi => h i (by omega)), h k (by omega)]

/-! ### reassign_testNs lemmas -/

theorem reassign_testNs_eq_zero_of_none {N : List Int} {s e : Int}
    (h : ∀ x ∈ N, ¬(s < x ∧ x < e)) : reassign_testNs N s e = 0 := by
  induction N with
  | nil => rfl
  | cons x xs ih =>
    unfold reassign_testNs
    by_cases hxe : x < e
    · have hsx : ¬ s < x := fun hsx => h x (by simp) ⟨hsx, hxe⟩
      simp only [if_pos hxe, if_neg hsx]
      exact ih (fun y hy => h y (by simp [hy]))
    · simp [hxe]

theorem reassign_testNs_ne_zero {N : List Int} {s e t : Int}
    (h : reassign_testNs N s e = t) (ht : t ≠ 0) : t ∈ N ∧ s < t ∧ t < e := by
  induction N with
  | nil => exact absurd h.symm ht
  | cons x xs ih =>
    unfold reassign_testNs at h
    by_cases hxe : x < e
    · by_cases hsx : s < x
      · simp only [if_pos hxe, if_pos hsx] at h
        subst h; exact ⟨by simp, hsx, hxe⟩
      · simp only [if_pos hxe, if_neg hsx] at h
        obtain ⟨h1, h2⟩ := ih h
        exact ⟨by simp [h1], h2⟩
    · simp only [if_neg hxe] at h
      exact absurd h.symm ht

theorem reassign_testNs_eq_zero_sorted {N : List Int} {s e : Int}
    (hs : 0 ≤ s) (hsort : N.Pairwise (· < ·))
    (h : reassign_testNs N s e = 0) : ∀ x ∈ N, ¬(s < x ∧ x < e) := by
  induction N with
  | nil => simp
  | cons x xs ih =>
    unfold reassign_testNs at h
    by_cases hxe : x < e
    · by_cases hsx : s < x
      · simp only [if_pos hxe, if_pos hsx] at h
        omega
      · simp only [if_pos hxe, if_neg hsx] at h
        intro y hy
        rcases List.mem_cons.mp hy with hy | hy
        · omega
        · exact ih (List.Pairwise.of_cons hsort) h y hy
    · simp only [if_neg hxe] at h
      intro y hy
      rcases List.mem_cons.mp hy with hy | hy
      · omega
      · have := List.rel_of_pairwise_cons hsort hy
        omega

/-! ### reassign_cmpseqs lemmas -/

theorem cmpWords_eq_zero_of_agree {f1 f2 : Nat → Nat} {w o tpos : Nat}
    (h : ∀ j < w, getK f1 (o + 32 * j) 32 = getK f2 (tpos + 32 * j) 32) :
    cmpWords f1 f2 w o tpos = 0 := by
  induction w generalizing o tpos with
  | zero => rfl
  | succ w ih =>
    have h0 := h 0 (by omega)
    simp only [Nat.mul_zero, Nat.add_zero] at h0
    show (if getK f2 tpos 32 ≠ getK f1 o 32 then
            (if getK f2 tpos 32 < getK f1 o 32 then (-1 : Int) else 1)
          else cmpWords f1 f2 w (o + 32) (tpos + 32)) = 0
    rw [if_neg (not_ne_iff.mpr h0.symm)]
    exact ih (fun j hj => by
      have hj1 := h (j + 1) (by omega)
      have e1 : o + 32 * (j + 1) = o + 32 + 32 * j := by ring
      have e2 : tpos + 32 * (j + 1) = tpos + 32 + 32 * j := by ring
      rw [e1, e2] at hj1
      exact hj1)

theorem cmpWords_eq_zero_agree {f1 f2 : Nat → Nat} {w o tpos : Nat}
    (h : cmpWords f1 f2 w o tpos = 0) :
    ∀ j < w, getK f1 (o + 32 * j) 32 = getK f2 (tpos + 32 * j) 32 := by
  induction w generalizing o tpos with
  | zero => omega
  | succ w ih =>
    replace h : (if getK f2 tpos 32 ≠ getK f1 o 32 then
            (if getK f2 tpos 32 < getK f1 o 32 then (-1 : Int) else 1)
          else cmpWords f1 f2 w (o + 32) (tpos + 32)) = 0 := h
    by_cases h0 : getK f2 tpos 32 = getK f1 o 32
    · rw [if_neg (not_ne_iff.mpr h0)] at h
      intro j hj
      match j with
      | 0 => simpa using h0.symm
      | j + 1 =>
        have hrec := ih h j (by omega)
        have e1 : o + 32 * (j + 1) = o + 32 + 32 * j := by ring
        have e2 : tpos + 32 * (j + 1) = tpos + 32 + 32 * j := by ring
        rw [e1, e2]
        exact hrec
    · rw [if_pos h0] at h
      split at h <;> omega

theorem reassign_cmpseqs_eq_zero_of_agree {f1 f2 : Nat → Nat} {L k : Nat}
    (hagree : ∀ i < L, f1 (k + i) = f2 i)
    (hpad : ∀ j, L ≤ j → f2 j = 0) :
    reassign_cmpseqs f1 f2 L (k : Int) = 0 := by
  have hdm := Nat.div_add_mod L 32
  have hm32 : L % 32 < 32 := Nat.mod_lt _ (by omega)
  have hwords : cmpWords f1 f2 (L / 32 + (if L % 32 = 0 then 0 else 1) - 1) k 0 = 0 := by
    apply cmpWords_eq_zero_of_agree
    intro j hj
    apply getK_congr
    intro i hi
    have hb : 32 * j + i < L := by
      rcases Nat.eq_zero_or_pos (L % 32) with h0 | h0
      · rw [if_pos (by omega : L % 32 = 0)] at hj; omega
      · rw [if_neg (by omega : ¬ L % 32 = 0)] at hj; omega
    have h1 : f1 (k + (32 * j + i)) = f2 (32 * j + i) := hagree _ hb
    have e1 : k + (32 * j + i) = k + 32 * j + i := by omega
    have e2 : (0 : Nat) + 32 * j + i = 32 * j + i := by omega
    rw [e1] at h1; rw [e2]; exact h1
  unfold reassign_cmpseqs
  rw [if_neg (by omega : ¬ ((k : Int) < 0))]
  simp only [Int.toNat_natCast]
  rw [hwords, if_neg (by omega : ¬ ((0 : Int) ≠ 0))]
  by_cases hm : L % 32 = 0
  · rw [if_neg (by omega : ¬ (L % 32 ≠ 0))]
  · rw [if_pos hm]
    unfold cmpRem
    have hz : getK f2 (32 * (L / 32) + L % 32) (32 - L % 32) = 0 :=
      getK_eq_zero (fun i _ => hpad _ (by omega))
    have hsplit := getK_split f2 (32 * (L / 32)) (L % 32) (32 - L % 32)
    rw [(by omega : L % 32 + (32 - L % 32) = 32)] at hsplit
    have hag : getK f2 (32 * (L / 32)) (L % 32) = getK f1 (k + 32 * (L / 32)) (L % 32) := by
      apply getK_congr
      intro i hi
      have h1 : f1 (k + (32 * (L / 32) + i)) = f2 (32 * (L / 32) + i) :=
        hagree _ (by omega)
      have e1 : k + (32 * (L / 32) + i) = k + 32 * (L / 32) + i := by omega
      rw [e1] at h1
      exact h1.symm
    rw [if_neg (not_ne_iff.mpr (by rw [hsplit, hz, hag]; ring))]

theorem reassign_cmpseqs_eq_zero_agree {f1 f2 : Nat → Nat} {L k : Nat}
    (h1 : ∀ i, f1 i < 4) (h2 : ∀ i, f2 i < 4)
    (h : reassign_cmpseqs f1 f2 L (k : Int) = 0) :
    ∀ i, ((i < L ∧ L % 32 ≠ 0) ∨ i + 32 < L) → f1 (k + i) = f2 i := by
  have hdm := Nat.div_add_mod L 32
  have hm32 : L % 32 < 32 := Nat.mod_lt _ (by omega)
  unfold reassign_cmpseqs at h
  rw [if_neg (by omega : ¬ ((k : Int) < 0))] at h
  simp only [Int.toNat_natCast] at h
  have hwords : cmpWords f1 f2 (L / 32 + (if L % 32 = 0 then 0 else 1) - 1) k 0 = 0 := by
    by_contra hh
    rw [if_pos hh] at h
    exact hh h
  rw [hwords, if_neg (by omega : ¬ ((0 : Int) ≠ 0))] at h
  have hfull : ∀ i, i < 32 * (L / 32 + (if L % 32 = 0 then 0 else 1) - 1) →
      f1 (k + i) = f2 i := by
    intro i hi
    have hj := cmpWords_eq_zero_agree hwords (i / 32) (by omega)
    have hpt := getK_inj 32 (fun j _ => h1 _) (fun j _ => h2 _) hj (i % 32) (by omega)
    have e1 : k + 32 * (i / 32) + i % 32 = k + i := by omega
    have e2 : (0 : Nat) + 32 * (i / 32) + i % 32 = i := by omega
    rw [e1, e2] at hpt
    exact hpt
  intro i hi
  rcases Nat.lt_or_ge i (32 * (L / 32 + (if L % 32 = 0 then 0 else 1) - 1)) with hiW | hiW
  · exact hfull i hiW
  · -- i lies in the remainder range, so L mod 32 must be nonzero
    have hm : L % 32 ≠ 0 := by
      intro h0
      rw [if_pos h0] at hiW
      omega
    rw [if_neg hm] at hiW
    rw [if_pos hm] at h
    unfold cmpRem at h
    have htw : getK f2 (32 * (L / 32)) 32 =
        getK f1 (k + 32 * (L / 32)) (L % 32) * 4 ^ (32 - L % 32) := by
      by_contra hh
      rw [if_pos hh] at h
      split at h <;> omega
    have hsplit := getK_split f2 (32 * (L / 32)) (L % 32) (32 - L % 32)
    rw [(by omega : L % 32 + (32 - L % 32) = 32)] at hsplit
    have hB : 0 < 4 ^ (32 - L % 32) := Nat.pos_pow_of_pos _ (by omega)
    have hX : getK f2 (32 * (L / 32) + L % 32) (32 - L % 32) < 4 ^ (32 - L % 32) :=
      getK_lt (fun j _ => h2 _)
    have hAC : getK f1 (k + 32 * (L / 32)) (L % 32) =
        getK f2 (32 * (L / 32)) (L % 32) := by
      have he : getK f1 (k + 32 * (L / 32)) (L % 32) * 4 ^ (32 - L % 32) =
          getK f2 (32 * (L / 32)) (L % 32) * 4 ^ (32 - L % 32) +
          getK f2 (32 * (L / 32) + L % 32) (32 - L % 32) := by
        rw [← htw, hsplit]
      have hq1 : getK f1 (k + 32 * (L / 32)) (L % 32) * 4 ^ (32 - L % 32) /
          4 ^ (32 - L % 32) = getK f1 (k + 32 * (L / 32)) (L % 32) :=
        Nat.mul_div_cancel _ hB
      have hq2 : (getK f2 (32 * (L / 32)) (L % 32) * 4 ^ (32 - L % 32) +
          getK f2 (32 * (L / 32) + L % 32) (32 - L % 32)) / 4 ^ (32 - L % 32) =
          getK f2 (32 * (L / 32)) (L % 32) := by
        rw [Nat.add_comm, Nat.add_mul_div_right _ _ hB, Nat.div_eq_of_lt hX]
        omega
      rw [← hq1, he, hq2]
    have hpt := getK_inj (L % 32) (fun j _ => h1 _) (fun j _ => h2 _) hAC
      (i - 32 * (L / 32)) (by omega)
    have hiL : i < L := by rcases hi with ⟨hiL, _⟩ | hi32 <;> omega
    have e1 : k + 32 * (L / 32) + (i - 32 * (L / 32)) = k + i := by omega
    have e2 : 32 * (L / 32) + (i - 32 * (L / 32)) = i := by omega
    rw [e1, e2] at hpt
    exact hpt

theorem getoffsetGo_found (c : CompDNA) (kmer : Nat) :
    ∀ d o j, o ≤ j → j < c.seqlen → d = c.seqlen - o → getK c.base j 32 = kmer →
    ∃ rn : Nat, getoffsetGo c kmer o d = (rn : Int) ∧ o ≤ rn ∧ rn ≤ j ∧
      getK c.base rn 32 = kmer := by
  intro d
  induction d with
  | zero => intro o j h1 h2 h3 _; omega
  | succ d ih =>
    intro o j h1 h2 h3 hw
    by_cases hwo : getK c.base o 32 = kmer
    · exact ⟨o, by rw [getoffsetGo, if_pos hwo], le_refl _, h1, hwo⟩
    · have hoj : o < j := by
        rcases Nat.eq_or_lt_of_le h1 with he | hlt
        · exact absurd (he ▸ hw) hwo
        · exact hlt
      obtain ⟨rn, hg, hg1, hg2, hg3⟩ := ih (o + 1) j (by omega) h2 (by omega) hw
      exact ⟨rn, by rw [getoffsetGo, if_neg hwo]; exact hg, by omega, hg2, hg3⟩

theorem getoffsetAux_found (c : CompDNA) (kmer : Nat) {o j : Nat}
    (ho : o ≤ j) (hj : j < c.seqlen) (hw : getK c.base j 32 = kmer) :
    ∃ rn : Nat, getoffsetAux c kmer o = (rn : Int) ∧ o ≤ rn ∧ rn ≤ j ∧
      getK c.base rn 32 = kmer :=
  getoffsetGo_found c kmer (c.seqlen - o) o j ho hj rfl hw

/-! ### reassign_matchseqs: soundness of a returned offset -/

theorem msLoop_sound {c q : CompDNA} {fuel : Nat} {start mtch r : Int}
    (hm : mtch = 0 → reassign_cmpseqs c.base q.base q.seqlen start = 0 ∧
      reassign_testNs c.N start (start + (q.seqlen : Int)) = 0)
    (h : msLoop c q fuel start mtch = some r) (hr : 0 ≤ r) :
    reassign_cmpseqs c.base q.base q.seqlen r = 0 ∧
      reassign_testNs c.N r (r + (q.seqlen : Int)) = 0 := by
  induction fuel generalizing start mtch with
  | zero => exact absurd h (by simp [msLoop])
  | succ fuel ih =>
    rw [msLoop] at h
    by_cases hcond : mtch ≠ 0 ∧ 0 ≤ start + 1 ∧
        (q.seqlen : Int) ≤ (c.seqlen : Int) - (start + 1)
    · rw [if_pos hcond] at h
      by_cases hm2 : reassign_cmpseqs c.base q.base q.seqlen (msSeek c q (start + 1)) = 0
      · rw [if_pos hm2] at h
        by_cases ht : reassign_testNs c.N (msSeek c q (start + 1))
            (msSeek c q (start + 1) + (q.seqlen : Int)) = 0
        · rw [if_pos ht] at h
          exact ih (fun _ => ⟨hm2, ht⟩) h
        · rw [if_neg ht] at h
          exact ih (fun h0 => absurd h0 ht) h
      · rw [if_neg hm2] at h
        exact ih (fun h0 => absurd h0 hm2) h
    · rw [if_neg hcond] at h
      by_cases hmt : mtch ≠ 0
      · rw [if_pos hmt] at h
        have he : (-1 : Int) = r := Option.some.inj h
        omega
      · rw [if_neg hmt] at h
        have he : start = r := Option.some.inj h
        subst he
        exact hm (by omega)

theorem reassign_matchseqs_some_nonneg {fuel : Nat} {c q : CompDNA} {r : Int}
    (h : reassign_matchseqs fuel c q = some r) (hr : 0 ≤ r) :
    reassign_cmpseqs c.base q.base q.seqlen r = 0 ∧
      reassign_testNs c.N r (r + (q.seqlen : Int)) = 0 := by
  unfold reassign_matchseqs at h
  cases hpre : msPrecheck c.N (q.seqlen : Int) (c.seqlen : Int) 0 with
  | none => rw [hpre] at h; simp at h; omega
  | some s =>
    rw [hpre] at h
    exact msLoop_sound (fun h0 => absurd h0 (by omega)) h hr

/-! ### reassign_matchseqs: completeness for long enough embedded candidates -/

theorem msPrecheck_le {N : List Int} {qlen clen : Int} {k : Int} {start : Int}
    (hs0 : 0 ≤ start) (hsk : start ≤ k)
    (hN : ∀ x ∈ N, 0 ≤ x ∧ (x < k ∨ k + qlen ≤ x))
    (hfit : k + qlen ≤ clen) :
    ∃ s, msPrecheck N qlen clen start = some s ∧ 0 ≤ s ∧ s ≤ k := by
  induction N generalizing start with
  | nil => exact ⟨start, rfl, hs0, hsk⟩
  | cons x xs ih =>
    unfold msPrecheck
    by_cases h1 : qlen ≤ x - start
    · rw [if_pos h1]
      exact ⟨start, rfl, hs0, hsk⟩
    · rw [if_neg h1]
      have hx := hN x (by simp)
      have hxk : x < k := by
        rcases hx.2 with h | h
        · exact h
        · omega
      rw [if_neg (by omega : ¬ clen - x < qlen)]
      exact ih (by omega) (by omega) (fun y hy => hN y (by simp [hy]))

theorem msLoop_complete {c q : CompDNA} {k : Nat}
    (hlen : 32 ≤ q.seqlen)
    (hfit : k + q.seqlen ≤ c.seqlen)
    (hagree : ∀ i < q.seqlen, c.base (k + i) = q.base i)
    (hN : ∀ x ∈ c.N, x < (k : Int) ∨ (k : Int) + (q.seqlen : Int) ≤ x) :
    ∀ fuel : Nat, ∀ start mtch : Int, mtch ≠ 0 → -1 ≤ start → start + 1 ≤ (k : Int) →
    (k : Int) < start + (fuel : Int) →
    ∃ r : Int, msLoop c q fuel start mtch = some r ∧ 0 ≤ r ∧ r ≤ (k : Int) ∧
      getK c.base r.toNat 32 = getK q.base 0 32 := by
  intro fuel
  induction fuel with
  | zero => intro start mtch _ _ _ hf; omega
  | succ fuel ih =>
    intro start mtch hmt hs1 hsk hf
    have hcond : mtch ≠ 0 ∧ 0 ≤ start + 1 ∧
        (q.seqlen : Int) ≤ (c.seqlen : Int) - (start + 1) := by
      refine ⟨hmt, by omega, ?_⟩
      have : ((k + q.seqlen : Nat) : Int) ≤ (c.seqlen : Int) := by exact_mod_cast hfit
      push_cast at this ⊢
      omega
    rw [msLoop, if_pos hcond]
    -- the seek finds a window at or before k
    have hko : k < c.seqlen := by omega
    have hwk : getK c.base k 32 = getK q.base 0 32 := by
      apply getK_congr
      intro i hi
      have := hagree i (by omega)
      simpa using this
    have hs1' : (start + 1).toNat ≤ k := by omega
    obtain ⟨rn, hrn, hrn1, hrn2, hrn3⟩ :=
      getoffsetAux_found c (getK q.base 0 32) hs1' hko hwk
    have hgo : reassign_getoffset c (getK q.base 0 32) (start + 1) = (rn : Int) := hrn
    have hseek : msSeek c q (start + 1) = (rn : Int) := by
      unfold msSeek
      rw [hgo, if_pos (by omega)]
    rw [hseek]
    rcases Nat.eq_or_lt_of_le hrn2 with hrk | hrk
    · -- the seek landed exactly on k: the full compare and the N test pass
      subst hrk
      have hcmp : reassign_cmpseqs c.base q.base q.seqlen ((rn : Nat) : Int) = 0 :=
        reassign_cmpseqs_eq_zero_of_agree hagree
          (fun j hj => CompDNA.base_eq_zero_of_ge hj)
      have htst : reassign_testNs c.N (rn : Int) ((rn : Int) + (q.seqlen : Int)) = 0 := by
        apply reassign_testNs_eq_zero_of_none
        intro x hx
        rcases hN x hx with h | h <;> omega
      rw [if_pos hcmp, if_pos htst]
      -- one more loop round exits with match = 0
      obtain ⟨fuel', hfuel'⟩ : ∃ fuel', fuel = fuel' + 1 := by
        rcases Nat.eq_zero_or_pos fuel with h0 | h0
        · omega
        · exact ⟨fuel - 1, by omega⟩
      subst hfuel'
      rw [msLoop, if_neg (by push_neg; intro h0; omega)]
      exact ⟨(rn : Int), by rw [if_neg (by omega)], by omega, by omega,
        by simpa using hrn3⟩
    · -- the seek landed strictly before k
      by_cases hm2 : reassign_cmpseqs c.base q.base q.seqlen ((rn : Nat) : Int) = 0
      · rw [if_pos hm2]
        by_cases ht : reassign_testNs c.N ((rn : Nat) : Int)
            (((rn : Nat) : Int) + (q.seqlen : Int)) = 0
        · rw [if_pos ht]
          obtain ⟨fuel', hfuel'⟩ : ∃ fuel', fuel = fuel' + 1 := by
            rcases Nat.eq_zero_or_pos fuel with h0 | h0
            · omega
            · exact ⟨fuel - 1, by omega⟩
          subst hfuel'
          rw [msLoop, if_neg (by push_neg; intro h0; omega)]
          exact ⟨(rn : Int), by rw [if_neg (by omega)], by omega, by omega,
            by simpa using hrn3⟩
        · rw [if_neg ht]
          -- the blocking N position lies strictly below k
          obtain ⟨htm, ht1, ht2⟩ := reassign_testNs_ne_zero rfl ht
          have htk : reassign_testNs c.N ((rn : Nat) : Int)
              (((rn : Nat) : Int) + (q.seqlen : Int)) < (k : Int) := by
            rcases hN _ htm with h | h
            · exact h
            · omega
          exact ih _ _ ht (by omega) (by omega) (by omega)
      · rw [if_neg hm2]
        exact ih _ _ hm2 (by omega) (by omega) (by omega)

theorem reassign_matchseqs_complete {fuel : Nat} {c q : CompDNA} {k : Nat}
    (hwfc : c.WF) (hwfq : q.WF)
    (hlen : 32 ≤ q.seqlen)
    (hfit : k + q.seqlen ≤ c.seqlen)
    (hagree : ∀ i < q.seqlen, c.base (k + i) = q.base i)
    (hN : ∀ x ∈ c.N, x < (k : Int) ∨ (k : Int) + (q.seqlen : Int) ≤ x)
    (hfuel : k + 2 ≤ fuel) :
    ∃ r : Int, reassign_matchseqs fuel c q = some r ∧ 0 ≤ r ∧ r ≤ (k : Int) ∧
      getK c.base r.toNat 32 = getK q.base 0 32 := by
  unfold reassign_matchseqs
  obtain ⟨s, hpre, hs0, hsk⟩ :=
    @msPrecheck_le c.N (q.seqlen : Int) (c.seqlen : Int) (k : Int) 0
      (le_refl 0) (by omega)
      (fun x hx => ⟨((hwfc.2.2 x hx).1), hN x hx⟩)
      (by exact_mod_cast hfit)
  rw [hpre]
  exact msLoop_complete hlen hfit hagree hN fuel (s - 1) 1
    (by omega) (by omega) (by omega) (by omega)

/-! ### Claim C1 (ExactMatcher correctness, amended) -/

/-- C1 (amended): for a consensus c and candidate q with 32 ≤ seqlen(q) that
equals the subsequence c[k..k+seqlen(q)) with no N position of c in that
range, reassign_matchseqs returns (with fuel at least k + 2) some offset r
with 0 ≤ r ≤ k — the first acceptable placement, which need not be k — at
which the leading 32 bases of the candidate match the consensus and no N
position lies strictly inside (r, r + seqlen(q)).  The original claim fails
both for candidates shorter than 32 bases (the seek compares whole 32-base
words, padding the candidate with A) and in demanding the offset be k
itself. -/
theorem claimC1_exact_matcher {fuel : Nat} {c q : CompDNA} {k : Nat}
    (hwfc : c.WF) (hwfq : q.WF)
    (hlen : 32 ≤ q.seqlen)
    (hfit : k + q.seqlen ≤ c.seqlen)
    (hagree : ∀ i < q.seqlen, c.base (k + i) = q.base i)
    (hN : ∀ x ∈ c.N, x < (k : Int) ∨ (k : Int) + (q.seqlen : Int) ≤ x)
    (hfuel : k + 2 ≤ fuel) :
    ∃ r : Int, reassign_matchseqs fuel c q = some r ∧ 0 ≤ r ∧ r ≤ (k : Int) ∧
      (∀ i < 32, c.base (r.toNat + i) = q.base i) ∧
      (∀ x ∈ c.N, ¬(r < x ∧ x < r + (q.seqlen : Int))) := by
  obtain ⟨r, h1, h2, h3, h4⟩ :=
    reassign_matchseqs_complete hwfc hwfq hlen hfit hagree hN hfuel
  refine ⟨r, h1, h2, h3, ?_, ?_⟩
  · intro i hi
    have := getK_inj 32 (fun j _ => CompDNA.base_lt_four hwfc _)
      (fun j _ => CompDNA.base_lt_four hwfq _) h4 i hi
    simpa using this
  · obtain ⟨hcmp, htst⟩ := reassign_matchseqs_some_nonneg h1 h2
    exact reassign_testNs_eq_zero_sorted h2 hwfc.2.1 htst

/-- C1 counterexample: the claim as stated fails at two concrete inputs.
First, with consensus ACGT and candidate CG = c[1..3) (no N anywhere) the
matcher returns -1, not 1: the seek compares full 32-base words, so a short
candidate padded with A is not found mid-sequence.  Second, with consensus
A^33 and candidate A^32 = c[1..33) the matcher returns 0, not 1: an earlier
placement wins. -/
theorem claimC1_counterexample :
    ((∀ i < (⟨[1, 2], []⟩ : CompDNA).seqlen,
        (⟨[0, 1, 2, 3], []⟩ : CompDNA).base (1 + i) = (⟨[1, 2], []⟩ : CompDNA).base i) ∧
      (⟨[0, 1, 2, 3], []⟩ : CompDNA).N = [] ∧
      reassign_matchseqs 10 ⟨[0, 1, 2, 3], []⟩ ⟨[1, 2], []⟩ ≠ some 1 ∧
      reassign_matchseqs 10 ⟨[0, 1, 2, 3], []⟩ ⟨[1, 2], []⟩ = some (-1)) ∧
    ((∀ i < (⟨List.replicate 32 0, []⟩ : CompDNA).seqlen,
        (⟨List.replicate 33 0, []⟩ : CompDNA).base (1 + i) =
          (⟨List.replicate 32 0, []⟩ : CompDNA).base i) ∧
      (⟨List.replicate 33 0, []⟩ : CompDNA).N = [] ∧
      reassign_matchseqs 40 ⟨List.replicate 33 0, []⟩ ⟨List.replicate 32 0, []⟩ ≠ some 1 ∧
      reassign_matchseqs 40 ⟨List.replicate 33 0, []⟩ ⟨List.replicate 32 0, []⟩ = some 0) := by
  decide

/-- C1 witness: the amended theorem applies at the concrete consensus A^32,
candidate A^32, k = 0. -/
theorem claimC1_witness :
    ((⟨List.replicate 32 0, []⟩ : CompDNA).WF ∧
      32 ≤ (⟨List.replicate 32 0, []⟩ : CompDNA).seqlen ∧
      0 + (⟨List.replicate 32 0, []⟩ : CompDNA).seqlen ≤
        (⟨List.replicate 32 0, []⟩ : CompDNA).seqlen) ∧
    (∃ r : Int,
      reassign_matchseqs 2 ⟨List.replicate 32 0, []⟩ ⟨List.replicate 32 0, []⟩ = some r ∧
      0 ≤ r ∧ r ≤ ((0 : Nat) : Int) ∧
      (∀ i < 32, (⟨List.replicate 32 0, []⟩ : CompDNA).base (r.toNat + i) =
        (⟨List.replicate 32 0, []⟩ : CompDNA).base i) ∧
      (∀ x ∈ (⟨List.replicate 32 0, []⟩ : CompDNA).N,
        ¬(r < x ∧ x < r + ((⟨List.replicate 32 0, []⟩ : CompDNA).seqlen : Int)))) :=
  ⟨⟨by decide, by decide, by decide⟩,
    claimC1_exact_matcher (k := 0) (by decide) (by decide) (by decide) (by decide)
      (by decide) (by decide) (by decide)⟩

/-! ### Claim C10 (Matcher soundness, amended) -/

/-- C10 (amended): if reassign_matchseqs returns a non-negative offset r for
well-formed inputs, then no N position of c lies strictly inside
(r, r + seqlen(q)), and the zero-padded two-bit bases of c starting at r
agree with those of q on the range the comparison loop actually inspects:
all of [0, seqlen(q)) when seqlen(q) mod 32 is nonzero, but only
[0, seqlen(q) - 32) when 32 divides seqlen(q) (the C loop while(--complen)
skips the final full word), and position r + i may lie beyond the end of c,
where the padding reads as base A.  The original claim fails: neither
r + seqlen(q) ≤ seqlen(c) nor full base equality holds. -/
theorem claimC10_matchseqs_sound {fuel : Nat} {c q : CompDNA} {r : Int}
    (hq : 0 < q.seqlen) (hwfc : c.WF) (hwfq : q.WF)
    (h : reassign_matchseqs fuel c q = some r) (hr : 0 ≤ r) :
    (∀ x ∈ c.N, ¬(r < x ∧ x < r + (q.seqlen : Int))) ∧
    (∀ i : Nat, ((i < q.seqlen ∧ q.seqlen % 32 ≠ 0) ∨ i + 32 < q.seqlen) →
      c.base (r.toNat + i) = q.base i) := by
  obtain ⟨hcmp, htst⟩ := reassign_matchseqs_some_nonneg h hr
  refine ⟨reassign_testNs_eq_zero_sorted hr hwfc.2.1 htst, ?_⟩
  have hrn : r = ((r.toNat : Nat) : Int) := by omega
  rw [hrn] at hcmp
  exact reassign_cmpseqs_eq_zero_agree (CompDNA.base_lt_four hwfc)
    (CompDNA.base_lt_four hwfq) hcmp

/-- C10 counterexample: on consensus TA and candidate AA the matcher returns
offset 1, although 1 + 2 exceeds the consensus length 2: the claimed bound
r + seqlen(q) ≤ seqlen(c) fails, because reads past the end of the packed
consensus alias the zero padding (base A). -/
theorem claimC10_counterexample :
    reassign_matchseqs 10 (⟨[3, 0], []⟩ : CompDNA) ⟨[0, 0], []⟩ = some 1 ∧
    ¬((1 : Int) + ((⟨[0, 0], []⟩ : CompDNA).seqlen : Int) ≤
        ((⟨[3, 0], []⟩ : CompDNA).seqlen : Int)) := by
  decide

/-- C10 witness: the amended theorem applies at consensus A, candidate A,
offset 0. -/
theorem claimC10_witness :
    (0 < (⟨[0], []⟩ : CompDNA).seqlen ∧
      reassign_matchseqs 3 (⟨[0], []⟩ : CompDNA) ⟨[0], []⟩ = some 0) ∧
    ((∀ x ∈ (⟨[0], []⟩ : CompDNA).N,
        ¬((0 : Int) < x ∧ x < 0 + ((⟨[0], []⟩ : CompDNA).seqlen : Int))) ∧
      (∀ i : Nat,
        ((i < (⟨[0], []⟩ : CompDNA).seqlen ∧ (⟨[0], []⟩ : CompDNA).seqlen % 32 ≠ 0) ∨
          i + 32 < (⟨[0], []⟩ : CompDNA).seqlen) →
        (⟨[0], []⟩ : CompDNA).base ((0 : Int).toNat + i) = (⟨[0], []⟩ : CompDNA).base i)) :=
  ⟨⟨by decide, by decide⟩,
    @claimC10_matchseqs_sound 3 ⟨[0], []⟩ ⟨[0], []⟩ 0 (by decide) (by decide) (by decide)
      (by decide) (by decide)⟩

/-! ### Claim C8 (Strand fallback order, amended) -/

/-- C8 (amended): reassign_matchseqs_rc first evaluates the forward match
reassign_matchseqs(consensus, candidate); when that returns 0 (a match at
offset 0) it returns 0 without trying the reverse, and when it returns any
nonzero value — including -1, no match — it evaluates the reverse-complement
match and returns its result.  The original claim inverted the condition. -/
theorem claimC8_strand_order {fuel : Nat} {c c_rc q : CompDNA} {r : Int}
    (h : reassign_matchseqs fuel c q = some r) :
    reassign_matchseqs_rc fuel c c_rc q =
      (if r ≠ 0 then reassign_matchseqs fuel c_rc q else some 0) := by
  unfold reassign_matchseqs_rc
  rw [h]

/-- C8 counterexample: with consensus ACGT and candidate CG the forward match
returns -1 (nonzero, no match), yet the reverse-complement match against ACG
is invoked and its offset 1 is returned — contradicting the claim that the
reverse is tried only on a zero forward return and that otherwise 0 is
returned. -/
theorem claimC8_counterexample :
    reassign_matchseqs 10 (⟨[0, 1, 2, 3], []⟩ : CompDNA) ⟨[1, 2], []⟩ = some (-1) ∧
    reassign_matchseqs_rc 10 (⟨[0, 1, 2, 3], []⟩ : CompDNA) ⟨[0, 1, 2], []⟩
      ⟨[1, 2], []⟩ = some 1 ∧
    (some (1 : Int) ≠ some (0 : Int)) := by
  decide

/-- C8 witness: the amended theorem applies at the concrete forward result
some 1 on consensus TA, candidate AA. -/
theorem claimC8_witness :
    reassign_matchseqs 10 (⟨[3, 0], []⟩ : CompDNA) ⟨[0, 0], []⟩ = some 1 ∧
    reassign_matchseqs_rc 10 (⟨[3, 0], []⟩ : CompDNA) ⟨[0, 0], []⟩ ⟨[0, 0], []⟩ =
      (if (1 : Int) ≠ 0 then reassign_matchseqs 10 ⟨[0, 0], []⟩ ⟨[0, 0], []⟩
       else some 0) :=
  ⟨by decide, claimC8_strand_order (by decide)⟩

/-! ### CandidateHeap (reassign_heapify, reassign_buildheap, reassign_popheap)

The C heap lives in the bestTemplates buffer: slot 0 holds the count n and
slots 1..n the ids.  reassign_heapify reads the count with n = *bests++ and
then RECURSES WITH THE INCREMENTED POINTER, so each deeper level reads the
element one slot further as its count and addresses slots shifted one
further; the buffer is therefore modelled whole, with an explicit pointer
offset, and reads beyond the list yield 0 as elsewhere in this model. -/

/-- NORM (spec glossary): absolute value of a signed template id, stripping
the strand sign. -/
def NORM (a : Int) : Nat := a.natAbs

/-- The three-assignment exchange of reassign_heapify: swap the elements at
the absolute buffer slots a and b. -/
def heapSwap (B : List Int) (a b : Nat) : List Int :=
  (B.set a (B.getD b 0)).set b (B.getD a 0)

/-- Key of the slot the C expression bests[i] addresses once the pointer
has advanced off slots: template_lengths[NORM(B[off + 1 + i])]. -/
def heapKeyAt (lengths : Nat → Int) (B : List Int) (off i : Nat) : Int :=
  lengths (NORM (B.getD (off + 1 + i) 0))

/-- First child comparison of reassign_heapify at pointer offset off.  The
count n is read at B[off]: at the top-level call this is the stored count,
at recursion depth one and deeper it is a heap ELEMENT — the C code runs
n = *bests++ and hands the advanced pointer to the recursive call. -/
def heapR1At (lengths : Nat → Int) (B : List Int) (off index : Nat) : Nat :=
  if ((2 * index + 1 : Nat) : Int) < B.getD off 0 ∧
      heapKeyAt lengths B off index < heapKeyAt lengths B off (2 * index + 1)
  then 2 * index + 1 else index

/-- Larger-child selection of reassign_heapify at pointer offset off: the
second child test re-reads the root chosen by the first. -/
def heapChildAt (lengths : Nat → Int) (B : List Int) (off index : Nat) : Nat :=
  if ((2 * index + 2 : Nat) : Int) < B.getD off 0 ∧
      heapKeyAt lengths B off (heapR1At lengths B off index) <
        heapKeyAt lengths B off (2 * index + 2)
  then 2 * index + 2 else heapR1At lengths B off index

/-- The recursion of reassign_heapify on the whole buffer at pointer offset
off: read the count at B[off], pick the larger in-range child, exchange and
recurse at the exchanged child WITH THE ADVANCED POINTER off + 1 (the C
recursion reassign_heapify(bests, lengths, root) receives the pointer
already incremented by n = *bests++).  The second component counts the
exchanges (the C return value).  The fuel only bounds the depth: once off
passes the end of the buffer the count reads 0 and the recursion stops by
itself, so B.length + 2 levels always suffice. -/
def heapifyGo (lengths : Nat → Int) : Nat → List Int → Nat → Nat → List Int × Nat
  | 0, B, _, _ => (B, 0)
  | fuel + 1, B, off, index =>
    if heapChildAt lengths B off index ≠ index then
      ((heapifyGo lengths fuel
          (heapSwap B (off + 1 + index)
            (off + 1 + heapChildAt lengths B off index))
          (off + 1) (heapChildAt lengths B off index)).1,
       (heapifyGo lengths fuel
          (heapSwap B (off + 1 + index)
            (off + 1 + heapChildAt lengths B off index))
          (off + 1) (heapChildAt lengths B off index)).2 + 1)
    else (B, 0)

/-- reassign_heapify (reassign.c): the sift-down entered at pointer offset
0 (the callers always pass the buffer start). -/
def reassign_heapify (lengths : Nat → Int) (B : List Int) (index : Nat) :
    List Int × Nat :=
  heapifyGo lengths (B.length + 2) B 0 index

/-- Bottom-up pass of reassign_buildheap: while(i--) sift-down at
i-1, ..., 0. -/
def buildheapGo (lengths : Nat → Int) : Nat → List Int → List Int × Nat
  | 0, B => (B, 0)
  | i + 1, B =>
    ((buildheapGo lengths i (reassign_heapify lengths B i).1).1,
     (reassign_heapify lengths B i).2 +
       (buildheapGo lengths i (reassign_heapify lengths B i).1).2)

/-- reassign_buildheap (reassign.c): i = *bests >> 1 (the first leaf), then
sift-down at i-1, ..., 0; returns the buffer and the number of exchanges.
A negative stored count is modelled as zero iterations (the C while(i--)
on a negative int depends on wraparound). -/
def reassign_buildheap (lengths : Nat → Int) (B : List Int) : List Int × Nat :=
  buildheapGo lengths ((B.getD 0 0).toNat / 2) B

/-- reassign_popheap (reassign.c): zero on a zero count, buffer untouched;
otherwise return the root bests[1], move the last live element bests[count]
to the root, decrement the count and sift the new root down. -/
def reassign_popheap (lengths : Nat → Int) (B : List Int) : Int × List Int :=
  if B.getD 0 0 = 0 then (0, B)
  else
    (B.getD 1 0,
     (reassign_heapify lengths
       ((B.set 1 (B.getD (B.getD 0 0).toNat 0)).set 0 (B.getD 0 0 - 1)) 0).1)

/-- Successive reassign_popheap results while the count is nonzero. -/
def popAllGo (lengths : Nat → Int) : Nat → List Int → List Int
  | 0, _ => []
  | d + 1, B =>
    if B.getD 0 0 = 0 then []
    else (reassign_popheap lengths B).1 ::
      popAllGo lengths d (reassign_popheap lengths B).2

/-- All ids popped from a buffer; the stored count bounds the pops, since
the count decreases by one per pop and no reassign_heapify write ever
touches slot 0. -/
def popAll (lengths : Nat → Int) (B : List Int) : List Int :=
  popAllGo lengths (B.getD 0 0).toNat B

/-! ### Heap lemmas: length and count discipline -/

theorem getD_set_self {α : Type} {l : List α} {i : Nat} {a d : α}
    (h : i < l.length) : (l.set i a).getD i d = a := by
  rw [List.getD_eq_getElem _ _ (by simpa using h)]
  simp [List.getElem_set]

theorem getD_set_ne {α : Type} {l : List α} {i j : Nat} {a d : α}
    (h : i ≠ j) : (l.set i a).getD j d = l.getD j d := by
  rcases Nat.lt_or_ge j l.length with hj | hj
  · rw [List.getD_eq_getElem _ _ (by simpa using hj),
      List.getD_eq_getElem _ _ hj]
    simp [List.getElem_set, h]
  · rw [List.getD_eq_default _ _ (by simpa using hj),
      List.getD_eq_default _ _ hj]

theorem heapSwap_len (B : List Int) (a b : Nat) :
    (heapSwap B a b).length = B.length := by
  simp [heapSwap]

theorem heapSwap_getD_low {B : List Int} {a b k : Nat}
    (ha : k ≠ a) (hb : k ≠ b) : (heapSwap B a b).getD k 0 = B.getD k 0 := by
  unfold heapSwap
  rw [getD_set_ne (fun he => hb he.symm), getD_set_ne (fun he => ha he.symm)]

theorem heapifyGo_len (lengths : Nat → Int) :
    ∀ (fuel : Nat) (B : List Int) (off index : Nat),
    (heapifyGo lengths fuel B off index).1.length = B.length := by
  intro fuel
  induction fuel with
  | zero => intro B off index; rfl
  | succ fuel ih =>
    intro B off index
    unfold heapifyGo
    by_cases hc : heapChildAt lengths B off index ≠ index
    · rw [if_pos hc]
      show (heapifyGo lengths fuel
        (heapSwap B (off + 1 + index)
          (off + 1 + heapChildAt lengths B off index))
        (off + 1) (heapChildAt lengths B off index)).1.length = B.length
      rw [ih, heapSwap_len]
    · rw [if_neg hc]

theorem heapifyGo_low (lengths : Nat → Int) :
    ∀ (fuel : Nat) (B : List Int) (off index k : Nat), k ≤ off →
    (heapifyGo lengths fuel B off index).1.getD k 0 = B.getD k 0 := by
  intro fuel
  induction fuel with
  | zero => intro B off index k _; rfl
  | succ fuel ih =>
    intro B off index k hk
    unfold heapifyGo
    by_cases hc : heapChildAt lengths B off index ≠ index
    · rw [if_pos hc]
      show (heapifyGo lengths fuel
        (heapSwap B (off + 1 + index)
          (off + 1 + heapChildAt lengths B off index))
        (off + 1) (heapChildAt lengths B off index)).1.getD k 0 = B.getD k 0
      rw [ih _ _ _ _ (by omega), heapSwap_getD_low (by omega) (by omega)]
    · rw [if_neg hc]

theorem reassign_heapify_len (lengths : Nat → Int) (B : List Int)
    (index : Nat) : (reassign_heapify lengths B index).1.length = B.length :=
  heapifyGo_len lengths (B.length + 2) B 0 index

theorem reassign_heapify_count (lengths : Nat → Int) (B : List Int)
    (index : Nat) :
    (reassign_heapify lengths B index).1.getD 0 0 = B.getD 0 0 :=
  heapifyGo_low lengths (B.length + 2) B 0 index 0 (Nat.le_refl 0)

theorem reassign_buildheap_count (lengths : Nat → Int) (B : List Int) :
    (reassign_buildheap lengths B).1.getD 0 0 = B.getD 0 0 := by
  show (buildheapGo lengths ((B.getD 0 0).toNat / 2) B).1.getD 0 0 = B.getD 0 0
  generalize (B.getD 0 0).toNat / 2 = i
  induction i generalizing B with
  | zero => rfl
  | succ i ih =>
    show (buildheapGo lengths i (reassign_heapify lengths B i).1).1.getD 0 0 =
      B.getD 0 0
    rw [ih, reassign_heapify_count]

theorem reassign_popheap_empty (lengths : Nat → Int) {B : List Int}
    (h : B.getD 0 0 = 0) : reassign_popheap lengths B = (0, B) := by
  unfold reassign_popheap
  rw [if_pos h]

theorem reassign_popheap_root (lengths : Nat → Int) {B : List Int}
    (h : B.getD 0 0 ≠ 0) : (reassign_popheap lengths B).1 = B.getD 1 0 := by
  unfold reassign_popheap
  rw [if_neg h]

theorem reassign_popheap_count (lengths : Nat → Int) {B : List Int}
    (h : B.getD 0 0 ≠ 0) :
    ((reassign_popheap lengths B).2).getD 0 0 = B.getD 0 0 - 1 := by
  have hBne : B ≠ [] := by
    intro he
    rw [he] at h
    exact h rfl
  have hlen : 0 < B.length := List.length_pos.mpr hBne
  unfold reassign_popheap
  rw [if_neg h]
  show ((reassign_heapify lengths
    ((B.set 1 (B.getD (B.getD 0 0).toNat 0)).set 0 (B.getD 0 0 - 1))
    0).1).getD 0 0 = B.getD 0 0 - 1
  rw [reassign_heapify_count, getD_set_self (by simpa using hlen)]

theorem reassign_popheap_len (lengths : Nat → Int) (B : List Int) :
    ((reassign_popheap lengths B).2).length = B.length := by
  unfold reassign_popheap
  by_cases h : B.getD 0 0 = 0
  · rw [if_pos h]
  · rw [if_neg h]
    show ((reassign_heapify lengths
      ((B.set 1 (B.getD (B.getD 0 0).toNat 0)).set 0 (B.getD 0 0 - 1))
      0).1).length = B.length
    rw [reassign_heapify_len]
    simp

theorem popAllGo_length (lengths : Nat → Int) :
    ∀ (d : Nat) (B : List Int), B.getD 0 0 = (d : Int) →
    (popAllGo lengths d B).length = d := by
  intro d
  induction d with
  | zero => intro B _; rfl
  | succ d ih =>
    intro B hB
    have hne : B.getD 0 0 ≠ 0 := by rw [hB]; omega
    unfold popAllGo
    rw [if_neg hne]
    show ((reassign_popheap lengths B).1 ::
      popAllGo lengths d (reassign_popheap lengths B).2).length = d + 1
    have hc2 : ((reassign_popheap lengths B).2).getD 0 0 = (d : Int) := by
      rw [reassign_popheap_count lengths hne, hB]
      push_cast
      ring
    rw [List.length_cons, ih _ hc2]

theorem popAll_length (lengths : Nat → Int) (B : List Int) (c : Nat)
    (hc : B.getD 0 0 = (c : Int)) : (popAll lengths B).length = c := by
  unfold popAll
  rw [hc, Int.toNat_natCast]
  exact popAllGo_length lengths c B hc

/-! ### Claim C4 (Heap ordering, corrected) -/

/-- C4 (corrected): the recursion of reassign_heapify advances the buffer
pointer (n = *bests++ before the recursive call), so every deeper level
reads the current heap-top element as its count over a shifted buffer, and
the heap discipline is lost: neither a root-max property after
reassign_buildheap nor a non-increasing pop order holds of the source (see
the counterexample, where the pops return the keys 10, 1, 0, 0, 9).  What
the code does guarantee: reassign_popheap returns 0 on a zero count
without touching the buffer; otherwise it returns the root element
bests[1], keeps the buffer length, and decrements the count — which no
reassign_heapify call ever rewrites — so successive pops return exactly
count elements. -/
theorem claimC4_heap (lengths : Nat → Int) (B : List Int) (c : Nat)
    (hc : B.getD 0 0 = (c : Int)) :
    (B.getD 0 0 = 0 → reassign_popheap lengths B = (0, B)) ∧
    (B.getD 0 0 ≠ 0 →
      (reassign_popheap lengths B).1 = B.getD 1 0 ∧
      ((reassign_popheap lengths B).2).getD 0 0 = B.getD 0 0 - 1 ∧
      ((reassign_popheap lengths B).2).length = B.length) ∧
    (reassign_heapify lengths B 0).1.getD 0 0 = B.getD 0 0 ∧
    (popAll lengths B).length = c :=
  ⟨reassign_popheap_empty lengths, fun h =>
    ⟨reassign_popheap_root lengths h, reassign_popheap_count lengths h,
      reassign_popheap_len lengths B⟩,
    reassign_heapify_count lengths B 0, popAll_length lengths B c hc⟩

/-- Counterexample for C4: on the buffer [7 | 1..7] with the key map
1 ↦ 1, 2 ↦ 10, 4 ↦ 9 (0 elsewhere), reassign_buildheap leaves the key 9
under the key 1 — the shifted-pointer recursion reads the heap root as the
count and never sifts it up — and the seven pops return the keys
10, 1, 0, 0, 9, 0, 0, which is not non-increasing; moreover popping a
non-empty buffer that stores the id 0 at the root returns 0, so a zero
return does not mean an empty heap. -/
theorem claimC4_counterexample :
    ((popAll (fun n => if n = 1 then (1 : Int) else if n = 2 then 10
        else if n = 4 then 9 else 0)
      (reassign_buildheap (fun n => if n = 1 then (1 : Int) else if n = 2 then 10
        else if n = 4 then 9 else 0) [7, 1, 2, 3, 4, 5, 6, 7]).1).map
      (fun t => if NORM t = 1 then (1 : Int) else if NORM t = 2 then 10
        else if NORM t = 4 then 9 else 0) = [10, 1, 0, 0, 9, 0, 0]) ∧
    ([10, 1, 0, 0, 9, 0, 0] : List Int).getD 3 0 <
      ([10, 1, 0, 0, 9, 0, 0] : List Int).getD 4 0 ∧
    (reassign_popheap (fun _ => 0) [1, 0]).1 = 0 ∧
    ([1, 0] : List Int).getD 0 0 ≠ 0 :=
  ⟨by decide, by decide, by decide, by decide⟩

/-- Witness for C4: the pop and count discipline at the buffer [3 | 5,-2,7]
keyed by the identity on NORM. -/
theorem claimC4_witness :
    (([3, 5, -2, 7] : List Int).getD 0 0 = 0 →
      reassign_popheap (fun n => (n : Int)) [3, 5, -2, 7] =
        (0, [3, 5, -2, 7])) ∧
    (([3, 5, -2, 7] : List Int).getD 0 0 ≠ 0 →
      (reassign_popheap (fun n => (n : Int)) [3, 5, -2, 7]).1 =
        ([3, 5, -2, 7] : List Int).getD 1 0 ∧
      ((reassign_popheap (fun n => (n : Int)) [3, 5, -2, 7]).2).getD 0 0 =
        ([3, 5, -2, 7] : List Int).getD 0 0 - 1 ∧
      ((reassign_popheap (fun n => (n : Int)) [3, 5, -2, 7]).2).length =
        ([3, 5, -2, 7] : List Int).length) ∧
    (reassign_heapify (fun n => (n : Int)) [3, 5, -2, 7] 0).1.getD 0 0 =
      ([3, 5, -2, 7] : List Int).getD 0 0 ∧
    (popAll (fun n => (n : Int)) [3, 5, -2, 7]).length = 3 :=
  claimC4_heap (fun n => (n : Int)) [3, 5, -2, 7] 3 (by decide)

/-! ### KmerScanner (reassign_kmers) -/

/-- HashMapKMA handle (hashmapkma.h): only the fields reassign_kmers reads.
The compressed hash and its value vectors are abstracted: lookup maps a cmer
to the identity of its value vector (hashMap_get returns a pointer and the
code compares pointers, so pointer equality is identity equality here), and
vec gives the template-id list a vector holds.  The short and int vector
layouts (DB_size below USHRT_MAX or not) walk the same id list, so the two
C branches collapse.  The C fields prefix and prefix_len are named pref and
pref_len here. -/
structure HashKMA where
  DB_size : Nat
  kmersize : Nat
  pref : Nat
  pref_len : Nat
  flag : Nat
  mlen : Nat
  lookup : Nat → Option Nat
  vec : Nat → List Nat

/-- Modelled from the spec: the minimizer machinery initCmer, updateCmer and
getCmer of stdnuc.h is not part of this repository; spec 4.1 and the
glossary describe it as a sliding hash over mlen bases selecting a
representative cmer.  It is abstracted as a state machine: init re-seeds
the state from the partial k-mer opening a stretch (initCmer), upd consumes
the next rolling k-mer and yields the next state and cmer (updateCmer), and
get maps a whole k-mer to a state and cmer (getCmer, used in prefix mode).
When the flag field is zero the machinery is bypassed and the cmer is the
k-mer itself, exactly as in the source. -/
structure Cmer (M : Type) where
  init : Nat → M
  upd : M → Nat → M × Nat
  get : M → Nat → M × Nat

/-- Rolling k-mer slide over one stretch (non-prefix passes of
reassign_kmers): for d = end - j steps, consume base j through the
updateKmer recurrence ((kmer << 2) | base) & mask — the base is two bits
and mask is 4^kmersize - 1, so this is (kmer * 4 + base) mod 4^kmersize —
and emit the cmer to look up. -/
def kmersStretch {M : Type} (cm : Cmer M) (kmersize flag : Nat) (f : Nat → Nat) :
    Nat → Int → Nat → M → List Nat
  | 0, _, _, _ => []
  | d + 1, j, kmer, st =>
    let kmer' := (kmer * 4 + f j.toNat % 4) % 4 ^ kmersize
    let p := if flag ≠ 0 then cm.upd st kmer' else (st, kmer')
    p.2 :: kmersStretch cm kmersize flag f d (j + 1) kmer' p.1

/-- Stretch iteration of a non-prefix pass: walks the N list (with the
seqlen sentinel the C code appends), initializing a k-mer from the
kmersize - 1 bases at j and sliding it up to the stretch end, as long as j
stays below seqend. -/
def kmersPassGo {M : Type} (cm : Cmer M) (kmersize flag : Nat) (f : Nat → Nat)
    (seqend : Int) : List Int → Int → List Nat
  | [], _ => []
  | e :: es, j =>
    if j < seqend then
      kmersStretch cm kmersize flag f (e - (j + (kmersize : Int) - 1)).toNat
          (j + (kmersize : Int) - 1) (getK f j.toNat (kmersize - 1))
          (cm.init (getK f j.toNat (kmersize - 1))) ++
        kmersPassGo cm kmersize flag f seqend es (max e (j + (kmersize : Int) - 1))
    else []

/-- The cmer lookup stream of one non-prefix pass of reassign_kmers.  The
score bookkeeping of the C loop never feeds back into the k-mer iteration,
so generating the stream first and folding it afterwards preserves the
behavior exactly. -/
def kmersPass {M : Type} (cm : Cmer M) (kmersize flag : Nat) (seqend : Int)
    (q : CompDNA) : List Nat :=
  kmersPassGo cm kmersize flag q.base seqend (q.N ++ [(q.seqlen : Int)]) 0

/-- Prefix-mer slide over one stretch (prefix mode of reassign_kmers): the
rolling prefix-mer consumes base j; at positions where it equals the
configured prefix, the whole k-mer at j + 1 is read and its cmer emitted.
The minimizer state threads through the pass, as mPos and hLen do in C. -/
def kmersPStretch {M : Type} (cm : Cmer M) (kmersize pref_len pref flag : Nat)
    (f : Nat → Nat) : Nat → Int → Nat → M → List Nat × M
  | 0, _, _, st => ([], st)
  | d + 1, j, pmer, st =>
    let pmer' := (pmer * 4 + f j.toNat % 4) % 4 ^ pref_len
    if pmer' = pref then
      let p := if flag ≠ 0 then cm.get st (getK f (j + 1).toNat kmersize)
               else (st, getK f (j + 1).toNat kmersize)
      let rest := kmersPStretch cm kmersize pref_len pref flag f d (j + 1) pmer' p.1
      (p.2 :: rest.1, rest.2)
    else
      kmersPStretch cm kmersize pref_len pref flag f d (j + 1) pmer' st

/-- Stretch iteration of a prefix-mode pass: per stretch the prefix-mer is
seeded from the pref_len - 1 bases at j and slid while j < N[i] - kmersize. -/
def kmersPPassGo {M : Type} (cm : Cmer M) (kmersize pref_len pref flag : Nat)
    (f : Nat → Nat) : List Int → Int → M → List Nat × M
  | [], _, st => ([], st)
  | e :: es, j, st =>
    let s := kmersPStretch cm kmersize pref_len pref flag f
      ((e - (kmersize : Int)) - (j + (pref_len : Int) - 1)).toNat
      (j + (pref_len : Int) - 1) (getK f j.toNat (pref_len - 1)) st
    let rest := kmersPPassGo cm kmersize pref_len pref flag f es
      (max (e - (kmersize : Int)) (j + (pref_len : Int) - 1)) s.2
    (s.1 ++ rest.1, rest.2)

/-- The cmer lookup stream of one prefix-mode pass, with the threaded
minimizer state. -/
def kmersPPass {M : Type} (cm : Cmer M) (kmersize pref_len pref flag : Nat)
    (q : CompDNA) (st : M) : List Nat × M :=
  kmersPPassGo cm kmersize pref_len pref flag q.base (q.N ++ [(q.seqlen : Int)]) 0 st

/-- Score-accumulation state of reassign_kmers: the run compression pair
(last, reps), the Score array and the candidate bucket (the count in the
C slot 0 is the list length). -/
structure ScanState where
  last : Option Nat
  reps : Int
  Score : Nat → Int
  bests : List Nat

/-- Flush of a (last, reps) run: each template id t of the value vector gets
Score[t] += reps, and a template whose score becomes exactly reps — it was
zero — is appended to the candidate bucket. -/
def kmersFlush : List Nat → Int → (Nat → Int) → List Nat → (Nat → Int) × List Nat
  | [], _, Score, bests => (Score, bests)
  | t :: ts, reps, Score, bests =>
    if Score t + reps = reps then
      kmersFlush ts reps (Function.update Score t (Score t + reps)) (bests ++ [t])
    else
      kmersFlush ts reps (Function.update Score t (Score t + reps)) bests

/-- Processing of one hash hit in reassign_kmers: a vector pointer equal to
last bumps reps; a different one flushes the pending run first. -/
def kmersHit (db : HashKMA) (v : Nat) (st : ScanState) : ScanState :=
  match st.last with
  | none => { st with last := some v, reps := 1 }
  | some l =>
    if v = l then { st with reps := st.reps + 1 }
    else
      { last := some v, reps := 1,
        Score := (kmersFlush (db.vec l) st.reps st.Score st.bests).1,
        bests := (kmersFlush (db.vec l) st.reps st.Score st.bests).2 }

/-- The lookup-and-accumulate loop of one pass over its cmer stream. -/
def kmersScan (db : HashKMA) : List Nat → ScanState → ScanState
  | [], st => st
  | c :: cs, st =>
    match db.lookup c with
    | none => kmersScan db cs st
    | some v => kmersScan db cs (kmersHit db v st)

/-- End-of-pass flush of the tail run (the if(last) block), with reps
cleared as in the source. -/
def kmersTail (db : HashKMA) (st : ScanState) : ScanState :=
  match st.last with
  | none => { st with reps := 0 }
  | some l =>
    { last := some l, reps := 0,
      Score := (kmersFlush (db.vec l) st.reps st.Score st.bests).1,
      bests := (kmersFlush (db.vec l) st.reps st.Score st.bests).2 }

/-- Evaluation sweep of reassign_kmers: walks the candidate bucket in order,
removing entries whose score is below the threshold and keeping the rest,
zeroing each visited entry's score. -/
def kmersSweep (thr : Nat → Int) : (Nat → Int) → List Nat → (Nat → Int) × List Nat
  | Score, [] => (Score, [])
  | Score, t :: ts =>
    if Score t < thr t then
      kmersSweep thr (Function.update Score t 0) ts
    else
      ((kmersSweep thr (Function.update Score t 0) ts).1,
       t :: (kmersSweep thr (Function.update Score t 0) ts).2)

/-- Fresh per-call accumulation state: empty buckets and the caller's Score
scratch. -/
def kmersInit (Score : Nat → Int) : ScanState := ⟨none, 0, Score, []⟩

/-- Per-pass reset of the run compression (last = 0, reps = 0 at the top of
each strand pass). -/
def kmersReset (st : ScanState) : ScanState := { st with last := none, reps := 0 }

/-- Pre-sweep state of the prefix-mode branch: both strand passes feed the
same bucket; the tail run is flushed after each pass. -/
def kmersPrefixState {M : Type} (db : HashKMA) (cm : Cmer M) (m0 : M)
    (Score : Nat → Int) (qseq_fw qseq_rc : CompDNA) : ScanState :=
  kmersTail db (kmersScan db
    (kmersPPass cm db.kmersize db.pref_len db.pref db.flag qseq_rc
      (kmersPPass cm db.kmersize db.pref_len db.pref db.flag qseq_fw m0).2).1
    (kmersReset (kmersTail db (kmersScan db
      (kmersPPass cm db.kmersize db.pref_len db.pref db.flag qseq_fw m0).1
      (kmersInit Score)))))

/-- Pre-sweep state of one non-prefix pass over its own bucket. -/
def kmersPassState {M : Type} (db : HashKMA) (cm : Cmer M) (seqend : Int)
    (Score : Nat → Int) (q : CompDNA) : ScanState :=
  kmersTail db (kmersScan db (kmersPass cm db.kmersize db.flag seqend q)
    (kmersInit Score))

/-- Per-template threshold of the non-prefix sweeps:
template_lengths[t] - kmersize + 1. -/
def kmersThr (db : HashKMA) (template_lengths : Nat → Int) : Nat → Int :=
  fun t => template_lengths t - (db.kmersize : Int) + 1

/-- seqend of reassign_kmers, computed once from the forward sequence. -/
def kmersSeqend (db : HashKMA) (qseq_fw : CompDNA) : Int :=
  (qseq_fw.seqlen : Int) - (db.kmersize : Int) + 1

/-- Swept forward pass (non-prefix mode). -/
def kmersFwSwept {M : Type} (db : HashKMA) (cm : Cmer M) (Score : Nat → Int)
    (template_lengths : Nat → Int) (qseq_fw : CompDNA) : (Nat → Int) × List Nat :=
  kmersSweep (kmersThr db template_lengths)
    (kmersPassState db cm (kmersSeqend db qseq_fw) Score qseq_fw).Score
    (kmersPassState db cm (kmersSeqend db qseq_fw) Score qseq_fw).bests

/-- Swept reverse-complement pass (non-prefix mode, only when the pref field
is zero), run on the score array the forward sweep left behind. -/
def kmersRcSwept {M : Type} (db : HashKMA) (cm : Cmer M) (Score : Nat → Int)
    (template_lengths : Nat → Int) (qseq_fw qseq_rc : CompDNA) :
    (Nat → Int) × List Nat :=
  kmersSweep (kmersThr db template_lengths)
    (kmersPassState db cm (kmersSeqend db qseq_fw)
      (kmersFwSwept db cm Score template_lengths qseq_fw).1 qseq_rc).Score
    (kmersPassState db cm (kmersSeqend db qseq_fw)
      (kmersFwSwept db cm Score template_lengths qseq_fw).1 qseq_rc).bests

/-- reassign_kmers (reassign.c), returning the final Score array and the
bestTemplates list (the returned C count is its length).  In prefix mode the
threshold indexes template_lengths at DB_size + t (the C code advances the
template_lengths pointer by DB_size); otherwise each strand pass is swept
with template_lengths[t] - kmersize + 1 and the reverse candidates are
appended negated.  The reverse pass runs only when the pref field is zero
(the C loop bound 1 + (prefix ? 0 : 1)). -/
def reassign_kmers {M : Type} (db : HashKMA) (cm : Cmer M) (m0 : M)
    (Score : Nat → Int) (template_lengths : Nat → Int)
    (qseq_fw qseq_rc : CompDNA) : (Nat → Int) × List Int :=
  if db.pref_len ≠ 0 then
    ((kmersSweep (fun t => template_lengths (db.DB_size + t))
        (kmersPrefixState db cm m0 Score qseq_fw qseq_rc).Score
        (kmersPrefixState db cm m0 Score qseq_fw qseq_rc).bests).1,
     ((kmersSweep (fun t => template_lengths (db.DB_size + t))
        (kmersPrefixState db cm m0 Score qseq_fw qseq_rc).Score
        (kmersPrefixState db cm m0 Score qseq_fw qseq_rc).bests).2).map
       (fun t : Nat => (t : Int)))
  else if db.pref ≠ 0 then
    ((kmersFwSwept db cm Score template_lengths qseq_fw).1,
     ((kmersFwSwept db cm Score template_lengths qseq_fw).2).map (fun t : Nat => (t : Int)))
  else
    ((kmersRcSwept db cm Score template_lengths qseq_fw qseq_rc).1,
     ((kmersFwSwept db cm Score template_lengths qseq_fw).2).map (fun t : Nat => (t : Int)) ++
       ((kmersRcSwept db cm Score template_lengths qseq_fw qseq_rc).2).map
         (fun t : Nat => -(t : Int)))

/-- The uncompressed processing variant the spec's compression-equivalence
property describes: every hash hit is flushed individually with reps 1,
carrying just the Score array and the candidate bucket. -/
def kmersScanNC (db : HashKMA) :
    List Nat → (Nat → Int) × List Nat → (Nat → Int) × List Nat
  | [], p => p
  | c :: cs, p =>
    match db.lookup c with
    | none => kmersScanNC db cs p
    | some v => kmersScanNC db cs (kmersFlush (db.vec v) 1 p.1 p.2)

/-- Uncompressed pre-sweep state of one non-prefix pass. -/
def kmersPassStateNC {M : Type} (db : HashKMA) (cm : Cmer M) (seqend : Int)
    (Score : Nat → Int) (q : CompDNA) : (Nat → Int) × List Nat :=
  kmersScanNC db (kmersPass cm db.kmersize db.flag seqend q) (Score, [])

/-- Uncompressed pre-sweep state of the prefix-mode branch: both strand
streams processed hit by hit into the same bucket. -/
def kmersPrefixStateNC {M : Type} (db : HashKMA) (cm : Cmer M) (m0 : M)
    (Score : Nat → Int) (qseq_fw qseq_rc : CompDNA) : (Nat → Int) × List Nat :=
  kmersScanNC db
    (kmersPPass cm db.kmersize db.pref_len db.pref db.flag qseq_rc
      (kmersPPass cm db.kmersize db.pref_len db.pref db.flag qseq_fw m0).2).1
    (kmersScanNC db
      (kmersPPass cm db.kmersize db.pref_len db.pref db.flag qseq_fw m0).1
      (Score, []))

/-- Uncompressed swept forward pass. -/
def kmersFwSweptNC {M : Type} (db : HashKMA) (cm : Cmer M) (Score : Nat → Int)
    (template_lengths : Nat → Int) (qseq_fw : CompDNA) : (Nat → Int) × List Nat :=
  kmersSweep (kmersThr db template_lengths)
    (kmersPassStateNC db cm (kmersSeqend db qseq_fw) Score qseq_fw).1
    (kmersPassStateNC db cm (kmersSeqend db qseq_fw) Score qseq_fw).2

/-- Uncompressed swept reverse-complement pass. -/
def kmersRcSweptNC {M : Type} (db : HashKMA) (cm : Cmer M) (Score : Nat → Int)
    (template_lengths : Nat → Int) (qseq_fw qseq_rc : CompDNA) :
    (Nat → Int) × List Nat :=
  kmersSweep (kmersThr db template_lengths)
    (kmersPassStateNC db cm (kmersSeqend db qseq_fw)
      (kmersFwSweptNC db cm Score template_lengths qseq_fw).1 qseq_rc).1
    (kmersPassStateNC db cm (kmersSeqend db qseq_fw)
      (kmersFwSweptNC db cm Score template_lengths qseq_fw).1 qseq_rc).2

/-- The spec's uncompressed variant of reassign_kmers: identical pass
structure, streams, thresholds and sweeps, but every hash hit is flushed
individually with reps 1 instead of being run-compressed through the
(last, reps) pair. -/
def reassign_kmers_nocompress {M : Type} (db : HashKMA) (cm : Cmer M) (m0 : M)
    (Score : Nat → Int) (template_lengths : Nat → Int)
    (qseq_fw qseq_rc : CompDNA) : (Nat → Int) × List Int :=
  if db.pref_len ≠ 0 then
    ((kmersSweep (fun t => template_lengths (db.DB_size + t))
        (kmersPrefixStateNC db cm m0 Score qseq_fw qseq_rc).1
        (kmersPrefixStateNC db cm m0 Score qseq_fw qseq_rc).2).1,
     ((kmersSweep (fun t => template_lengths (db.DB_size + t))
        (kmersPrefixStateNC db cm m0 Score qseq_fw qseq_rc).1
        (kmersPrefixStateNC db cm m0 Score qseq_fw qseq_rc).2).2).map
       (fun t : Nat => (t : Int)))
  else if db.pref ≠ 0 then
    ((kmersFwSweptNC db cm Score template_lengths qseq_fw).1,
     ((kmersFwSweptNC db cm Score template_lengths qseq_fw).2).map (fun t : Nat => (t : Int)))
  else
    ((kmersRcSweptNC db cm Score template_lengths qseq_fw qseq_rc).1,
     ((kmersFwSweptNC db cm Score template_lengths qseq_fw).2).map
       (fun t : Nat => (t : Int)) ++
       ((kmersRcSweptNC db cm Score template_lengths qseq_fw qseq_rc).2).map
         (fun t : Nat => -(t : Int)))

/-- Membership rule of the reassign_kmers output (the corrected threshold
property): in prefix mode an id t is returned iff it entered the candidate
bucket and its accumulated pre-sweep score reaches
template_lengths[DB_size + t] (the C code advances the template_lengths
pointer by DB_size before prefix sweeps); in non-prefix modes the threshold
is template_lengths[t] - kmersize + 1, the forward ids are returned as t and
the reverse-complement ids as -t. -/
def C3Post {M : Type} (db : HashKMA) (cm : Cmer M) (m0 : M) (Score : Nat → Int)
    (template_lengths : Nat → Int) (qseq_fw qseq_rc : CompDNA) (t : Nat) : Prop :=
  (db.pref_len ≠ 0 →
    ((t : Int) ∈ (reassign_kmers db cm m0 Score template_lengths qseq_fw qseq_rc).2 ↔
      t ∈ (kmersPrefixState db cm m0 Score qseq_fw qseq_rc).bests ∧
        template_lengths (db.DB_size + t) ≤
          (kmersPrefixState db cm m0 Score qseq_fw qseq_rc).Score t)) ∧
  (db.pref_len = 0 → db.pref ≠ 0 →
    ((t : Int) ∈ (reassign_kmers db cm m0 Score template_lengths qseq_fw qseq_rc).2 ↔
      t ∈ (kmersPassState db cm (kmersSeqend db qseq_fw) Score qseq_fw).bests ∧
        template_lengths t - (db.kmersize : Int) + 1 ≤
          (kmersPassState db cm (kmersSeqend db qseq_fw) Score qseq_fw).Score t)) ∧
  (db.pref_len = 0 → db.pref = 0 → 0 < t →
    (((t : Int) ∈ (reassign_kmers db cm m0 Score template_lengths qseq_fw qseq_rc).2 ↔
      t ∈ (kmersPassState db cm (kmersSeqend db qseq_fw) Score qseq_fw).bests ∧
        template_lengths t - (db.kmersize : Int) + 1 ≤
          (kmersPassState db cm (kmersSeqend db qseq_fw) Score qseq_fw).Score t) ∧
     ((-(t : Int)) ∈ (reassign_kmers db cm m0 Score template_lengths qseq_fw qseq_rc).2 ↔
      t ∈ (kmersPassState db cm (kmersSeqend db qseq_fw)
            ((kmersFwSwept db cm Score template_lengths qseq_fw).1) qseq_rc).bests ∧
        template_lengths t - (db.kmersize : Int) + 1 ≤
          (kmersPassState db cm (kmersSeqend db qseq_fw)
            ((kmersFwSwept db cm Score template_lengths qseq_fw).1) qseq_rc).Score t)))

/-! ### ef.c: extended-features accumulation (single worker) -/

/-- Modelled from the spec: assembly.h is not part of this repository; the
spec and the uses in reassign.c describe a matrix node as six per-nucleotide
counts (A, C, G, T, N and the gap count in slot 5) plus a next link
threading template columns and insertion slots. -/
structure Assembly where
  counts : Nat → Nat
  next : Nat

/-- depthUpdate of getExtendedFeatures before the gap count is added:
counts[0] + counts[1] + counts[2] + counts[3] + counts[4]. -/
def efDepth (asm : Nat → Assembly) (p : Nat) : Nat :=
  (asm p).counts 0 + (asm p).counts 1 + (asm p).counts 2 +
    (asm p).counts 3 + (asm p).counts 4

/-- Local accumulators of getExtendedFeatures; for a single worker the
function publishes exactly these into the freshly zeroed Assem fields. -/
structure EFState where
  snpSum : Nat
  insertSum : Nat
  deletionSum : Nat
  maxDepth : Nat
  nucHighVar : Nat

/-- One slot of the chunk walk of getExtendedFeatures: a template slot
(pos < t_len) accumulates counts[5] into deletionSum and
depthUpdate - counts[getNuc(seq, pos)] into snpSum, an insertion slot
accumulates depthUpdate into insertSum; both then add counts[5] to
depthUpdate, track the maximum and bump the high-variance counter when the
highVar bound is exceeded.  The accessor getNuc of stdnuc.h (not in this
repository) is abstracted as the function nuc from position to base, and
the floating highVar comparison as the Boolean test hv. -/
def efStep (asm : Nat → Assembly) (nuc : Nat → Nat) (t_len : Nat)
    (hv : Nat → Bool) (st : EFState) (pos : Nat) : EFState :=
  if pos < t_len then
    { snpSum := st.snpSum + (efDepth asm pos - (asm pos).counts (nuc pos)),
      insertSum := st.insertSum,
      deletionSum := st.deletionSum + (asm pos).counts 5,
      maxDepth := max st.maxDepth (efDepth asm pos + (asm pos).counts 5),
      nucHighVar := st.nucHighVar +
        if hv (efDepth asm pos + (asm pos).counts 5) then 1 else 0 }
  else
    { snpSum := st.snpSum,
      insertSum := st.insertSum + efDepth asm pos,
      deletionSum := st.deletionSum,
      maxDepth := max st.maxDepth (efDepth asm pos + (asm pos).counts 5),
      nucHighVar := st.nucHighVar +
        if hv (efDepth asm pos + (asm pos).counts 5) then 1 else 0 }

/-- The inner while(pos != end) walk of getExtendedFeatures: process the
slot, then follow the next link, jumping to end when the link is 0.  The
fuel bounds the walk; none models the divergence a cyclic chain would
cause. -/
def efWalkGo (asm : Nat → Assembly) (nuc : Nat → Nat) (t_len : Nat)
    (hv : Nat → Bool) (e : Nat) : Nat → Nat → EFState → Option EFState
  | 0, _, _ => none
  | fuel + 1, pos, st =>
    if pos = e then some st
    else
      efWalkGo asm nuc t_len hv e fuel
        (if (asm pos).next = 0 then e else (asm pos).next)
        (efStep asm nuc t_len hv st pos)

/-- The outer while(chunk) loop of getExtendedFeatures for a single worker:
next is the chunk counter (the signed-overflow guard (next += chunk) < 0 is
modelled at 2^31), chunk stays 8112 until the final chunk clamps end to
t_len - 1 and zeroes it; a start position at or past t_len ends the loop. -/
def efChunksGo (asm : Nat → Assembly) (nuc : Nat → Nat) (t_len : Nat)
    (hv : Nat → Bool) : Nat → Nat → Nat → EFState → Option EFState
  | 0, _, _, _ => none
  | fuel + 1, nxt, chunk, st =>
    if chunk = 0 then some st
    else if nxt < t_len then
      match efWalkGo asm nuc t_len hv
          (if t_len ≤ nxt + chunk then t_len - 1 else nxt + chunk) fuel nxt st with
      | none => none
      | some st2 =>
        efChunksGo asm nuc t_len hv fuel
          (if nxt + chunk < 2 ^ 31 then nxt + chunk else t_len)
          (if t_len ≤ nxt + chunk then 0 else chunk) st2
    else some st

/-- getExtendedFeatures (ef.c) for a single worker (thread_num = 1): all
accumulators start at zero, the shared next counter starts at zero and the
chunk size is 8112. -/
def getExtendedFeatures (asm : Nat → Assembly) (nuc : Nat → Nat) (t_len : Nat)
    (hv : Nat → Bool) (fuel : Nat) : Option EFState :=
  efChunksGo asm nuc t_len hv fuel 0 8112 ⟨0, 0, 0, 0, 0⟩

/-! ### reassign_template: candidate loop and mutation gating -/

/-- Strand policy of the candidate loop of reassign_template: with a prefix
configured (templates->prefix || templates->prefix_len) both strands are
tried, the reverse on a negative forward return; otherwise the sign of the
popped id selects the strand.  loadseq maps the candidate id to its loaded
template sequence (reassign_loadseq reads it from the sequence file). -/
def rtMatch (pref pref_len : Nat) (qc qrc : CompDNA) (loadseq : Int → CompDNA)
    (fuelM : Nat) (t : Int) : Option Int :=
  if pref ≠ 0 ∨ pref_len ≠ 0 then
    match reassign_matchseqs fuelM qc (loadseq t) with
    | none => none
    | some m1 =>
      if m1 < 0 then reassign_matchseqs fuelM qrc (loadseq t) else some m1
  else if 0 < t then reassign_matchseqs fuelM qc (loadseq t)
  else reassign_matchseqs fuelM qrc (loadseq t)

/-- The while(match < 0 && (template = reassign_popheap(...))) loop of
reassign_template: while the match is negative, pop a candidate, stop on
the 0 sentinel, otherwise match it; returns (template, match, heap) -
none on a diverging matcher call or exhausted fuel. -/
def rtLoopGo (lengths : Nat → Int) (mseq : Int → Option Int) :
    Nat → Int → Int → List Int → Option (Int × Int × List Int)
  | 0, _, _, _ => none
  | fuel + 1, t, m, bests =>
    if m < 0 then
      if (reassign_popheap lengths bests).1 = 0 then
        some (0, m, (reassign_popheap lengths bests).2)
      else
        match mseq (reassign_popheap lengths bests).1 with
        | none => none
        | some m2 =>
          rtLoopGo lengths mseq fuel (reassign_popheap lengths bests).1 m2
            (reassign_popheap lengths bests).2
    else some (t, m, bests)

/-- reassign_template (reassign.c) after its one-time initialization: scan
the consensus for candidates, heap them by template length, pop and match
until a candidate places exactly, then rewrite.  The pieces living in
files outside this repository are abstracted: qc and qrc stand for the
compressed consensus and its reverse complement (consensus2qseq, compDNA
and rc_comp of compdna.c), loadseq for reassign_loadseq, and mutate for
the entire match path - the assemble_rc strand flip on a negative id,
reassign_matrix_offset, getExtendedFeatures and nameLoad - which receives
the matrix, the consensus, the popped id and the match offset and returns
the rewritten matrix and consensus.  The candidate buffer carries its
count in slot 0 (reassign_kmers stores bests[++*bests] = id and returns
*bestTemplates) and the ids in slots 1..count.  The C function returns the
(positive) reassigned template id, or 0 when no candidate matched. -/
def reassign_template {M A B : Type} (db : HashKMA) (cm : Cmer M) (m0 : M)
    (Score : Nat → Int) (lengths : Nat → Int) (qc qrc : CompDNA)
    (loadseq : Int → CompDNA) (mutate : A → B → Int → Int → A × B)
    (matrix : A) (assem : B) (fuelM : Nat) : Option (Int × A × B) :=
  match rtLoopGo lengths (rtMatch db.pref db.pref_len qc qrc loadseq fuelM)
      ((reassign_kmers db cm m0 Score lengths qc qrc).2.length + 1) 0 (-1)
      (reassign_buildheap lengths
        (((reassign_kmers db cm m0 Score lengths qc qrc).2.length : Int) ::
          (reassign_kmers db cm m0 Score lengths qc qrc).2)).1 with
  | none => none
  | some (t, m, _) =>
    if t = 0 then some (0, matrix, assem)
    else
      some (if t < 0 then -t else t,
        (mutate matrix assem t m).1, (mutate matrix assem t m).2)

/-! ### reassign_matrix_offset: the matrix rewriter -/

/-- Matrix-and-consensus state of reassign_matrix_offset: the Assembly
array (as a total map over slot indices), its len and size, the consensus
t characters (coded 0 = NUL, 45 = the gap char, bases otherwise), and the
depth statistics the rewriter recomputes.  The s stream is written but
never read and the q characters read at a position are never changed
before that read (writes trail the read pointer and rewrite the value just
read), so s is dropped and q is passed as a read-only map. -/
structure MOState where
  asmb : Nat → Assembly
  mlen : Nat
  msize : Nat
  tS : Nat → Nat
  depth : Nat
  depthVar : Nat

/-- Loop registers of the basecall loop of reassign_matrix_offset: the
read index into t/q, the write index of newt, the chain position and the
asm_ptr index (they differ transiently after a free), aln_len, asm_len,
the free-list head (0 = empty, as in the C sentinel), new_pos and the
new_ptr index (none while NULL). -/
structure MORegs where
  i : Nat
  j : Nat
  pos : Nat
  asmPtr : Nat
  alnLen : Nat
  asmLen : Nat
  insertions : Nat
  newPos : Nat
  newPtr : Option Nat

/-- Store v into the next field of slot k. -/
def updNext (f : Nat → Assembly) (k : Nat) (v : Nat) : Nat → Assembly :=
  Function.update f k ⟨(f k).counts, v⟩

/-- depthUpdate of the rewriter: all six counts, gap included. -/
def moDepth (st : MOState) (p : Nat) : Nat :=
  (st.asmb p).counts 0 + (st.asmb p).counts 1 + (st.asmb p).counts 2 +
    (st.asmb p).counts 3 + (st.asmb p).counts 4 + (st.asmb p).counts 5

/-- The while(offset) walk to the offset column: a non-gap q consumes one
of offset, every column advances the pointers and follows the chain;
returns the read index and chain position reached.  none models the
divergence on a q stream with too few non-gaps. -/
def moOffsetGo (qS : Nat → Nat) (asmb : Nat → Assembly) :
    Nat → Int → Nat → Nat → Option (Nat × Nat)
  | 0, _, _, _ => none
  | fuel + 1, off, i, pos =>
    if off = 0 then some (i, pos)
    else moOffsetGo qS asmb fuel (if qS i ≠ 45 then off - 1 else off) (i + 1)
      (asmb pos).next

/-- The insertion-count loop: from the offset column, while *newt is not
NUL and up to t_len columns, count the columns that are a gap in t but not
in q. -/
def moBiasCount (tS qS : Nat → Nat) : Nat → Nat → Int
  | _, 0 => 0
  | i, a + 1 =>
    if tS i = 0 then 0
    else (if tS i = 45 ∧ qS i ≠ 45 then 1 else 0) + moBiasCount tS qS (i + 1) a

/-- The relocation loop of reassign_matrix_bias: every node moves up by
bias with its next link rebiased.  The C loop also copies the bias lowest
slots from below the array (reads before the buffer); those unspecified
slots are modelled through the truncated subtraction of the source
index. -/
def moShift (st : MOState) (b : Nat) : MOState :=
  { st with
    asmb := fun idx =>
      if idx < st.mlen + b then
        ⟨(st.asmb (idx - b)).counts, (st.asmb (idx - b)).next + b⟩
      else st.asmb idx,
    mlen := st.mlen + b }

/-- reassign_matrix_bias (reassign.c): grow the buffer when needed, do
nothing on a non-positive bias, otherwise shift the array up by bias;
returns the state and the applied bias (the C return value). -/
def reassign_matrix_bias (st : MOState) (bias : Int) : MOState × Int :=
  if (st.msize : Int) ≤ (st.mlen : Int) + bias then
    (moShift { st with
        msize := ((st.mlen : Int) + bias + 1).toNat } bias.toNat, bias)
  else if bias ≤ 0 then (st, 0)
  else (moShift st bias.toNat, bias)

/-- reassign_matrix_insertions (reassign.c): grow the buffer when full and
hand out the next fresh slot with a cleared next link. -/
def reassign_matrix_insertions (st : MOState) : MOState × Nat :=
  if st.msize = st.mlen then
    ({ st with msize := st.msize + 1024, asmb := updNext st.asmb st.mlen 0,
               mlen := st.mlen + 1 }, st.mlen)
  else ({ st with asmb := updNext st.asmb st.mlen 0, mlen := st.mlen + 1 },
    st.mlen)

/-- Basecall of one template column (the *q != '-' branch): accumulate the
depth, write the called base over newt, link the previous node to aln_len,
copy the current chain node into slot aln_len, and free the original slot
onto the insertions list when the (possibly just rewritten) t character is
a gap. -/
def moTemplate (tnuc : Nat → Nat) (st : MOState) (r : MORegs) :
    MOState × MORegs :=
  let d := moDepth st r.asmPtr
  let st1 := { st with depth := st.depth + d, depthVar := st.depthVar + d * d,
                       tS := Function.update st.tS r.j
                         ([65, 67, 71, 84, 78, 45].getD (tnuc r.alnLen) 0) }
  let st2 := match r.newPtr with
    | none => st1
    | some np => { st1 with asmb := updNext st1.asmb np r.alnLen }
  let st3 := { st2 with
    asmb := Function.update st2.asmb r.alnLen (st2.asmb r.asmPtr) }
  if st3.tS r.i = 45 then
    ({ st3 with asmb := updNext st3.asmb r.asmPtr r.insertions },
     { i := r.i + 1, j := r.j + 1,
       pos := ((updNext st3.asmb r.asmPtr r.insertions) r.alnLen).next,
       asmPtr := ((updNext st3.asmb r.asmPtr r.insertions) r.alnLen).next,
       alnLen := r.alnLen + 1, asmLen := r.asmLen + 1, insertions := r.pos,
       newPos := r.alnLen, newPtr := some r.alnLen })
  else
    (st3,
     { i := r.i + 1, j := r.j + 1, pos := (st3.asmb r.asmPtr).next,
       asmPtr := (st3.asmb r.asmPtr).next, alnLen := r.alnLen + 1,
       asmLen := r.asmLen + 1, insertions := r.insertions,
       newPos := r.alnLen, newPtr := some r.alnLen })

/-- One insertion column (the *q == '-' branch): a node sitting inside the
template area whose t character is not a gap is moved onto a free slot
(allocating one when the free list is empty), then the previous node is
linked to it; crashes (NULL new_ptr) are none. -/
def moInsertion (t_len : Nat) (st : MOState) (r : MORegs) :
    Option (MOState × MORegs) :=
  let m : MOState × Nat × Nat :=
    if r.pos < t_len ∧ st.tS r.i ≠ 45 then
      let a := if r.insertions = 0 then reassign_matrix_insertions st
               else (st, r.insertions)
      ({ a.1 with asmb := Function.update a.1.asmb a.2 (a.1.asmb r.asmPtr) },
       a.2, (a.1.asmb a.2).next)
    else (st, r.pos, r.insertions)
  match r.newPtr with
  | none => none
  | some np =>
    some ({ m.1 with asmb := updNext m.1.asmb np m.2.1 },
      { i := r.i + 1, j := r.j,
        pos := ((updNext m.1.asmb np m.2.1) m.2.1).next,
        asmPtr := ((updNext m.1.asmb np m.2.1) m.2.1).next,
        alnLen := r.alnLen, asmLen := r.asmLen + 1,
        insertions := m.2.2, newPos := m.2.1, newPtr := some m.2.1 })

/-- The while(aln_len != t_len) basecall loop. -/
def moLoopGo (t_len : Nat) (tnuc : Nat → Nat) (qS : Nat → Nat) :
    Nat → MOState → MORegs → Option (MOState × MORegs)
  | 0, _, _ => none
  | fuel + 1, st, r =>
    if r.alnLen = t_len then some (st, r)
    else if qS r.i ≠ 45 then
      moLoopGo t_len tnuc qS fuel (moTemplate tnuc st r).1 (moTemplate tnuc st r).2
    else
      match moInsertion t_len st r with
      | none => none
      | some p => moLoopGo t_len tnuc qS fuel p.1 p.2

/-- reassign_matrix_offset (reassign.c): walk to the offset column, count
the bias, shift the matrix, basecall every template column from the
offset, then terminate the streams and publish len = aln_len = t_len and
cover = t_len.  The result is the final matrix state with the published
(len, aln_len, cover); none models the crashes (NULL new_ptr at t_len = 0
or a leading insertion) and the diverging loops.  getNuc over the packed
template is abstracted as the base map tnuc (stdnuc.h is not in this
repository). -/
def reassign_matrix_offset (st0 : MOState) (qS : Nat → Nat) (offset : Int)
    (tnuc : Nat → Nat) (t_len : Nat) (fuel : Nat) :
    Option (MOState × Nat × Nat × Nat) :=
  match moOffsetGo qS st0.asmb fuel offset 0 0 with
  | none => none
  | some ip =>
    match moLoopGo t_len tnuc qS fuel
        { (reassign_matrix_bias st0
            (moBiasCount st0.tS qS ip.1 t_len - offset)).1 with
          depth := 0, depthVar := 0 }
        ⟨ip.1, 0,
          ((ip.2 : Int) + (reassign_matrix_bias st0
            (moBiasCount st0.tS qS ip.1 t_len - offset)).2).toNat,
          ((ip.2 : Int) + (reassign_matrix_bias st0
            (moBiasCount st0.tS qS ip.1 t_len - offset)).2).toNat,
          0, 0, 0, 0, none⟩ with
    | none => none
    | some sr =>
      match sr.2.newPtr with
      | none => none
      | some np =>
        some ({ sr.1 with tS := Function.update sr.1.tS sr.2.j 0,
                          asmb := updNext sr.1.asmb np 0,
                          mlen := sr.2.asmLen },
          sr.2.alnLen, sr.2.alnLen, t_len)

/-- The linked list from a slot: the visited indices, stopping at a 0 next
link (the head itself is always listed). -/
def chainWalk (asmb : Nat → Assembly) : Nat → Nat → List Nat
  | 0, _ => []
  | fuel + 1, p =>
    p :: (if (asmb p).next = 0 then [] else chainWalk asmb fuel (asmb p).next)

/-- Number of template-area slots (index below t_len — the rewriter places
template column a at slot a) on the list from slot 0 of a rewriter
result. -/
def C6Chain (t_len fuel : Nat) (o : Option (MOState × Nat × Nat × Nat)) :
    Option Nat :=
  match o with
  | none => none
  | some out =>
    some ((chainWalk out.1.asmb fuel 0).filter (fun p => p < t_len)).length

/-! ### Scanner lemmas: flush characterization -/

theorem kmersFlush_score : ∀ (vec : List Nat) (reps : Int) (S : Nat → Int)
    (B : List Nat) (t : Nat),
    (kmersFlush vec reps S B).1 t = S t + reps * vec.count t := by
  intro vec
  induction vec with
  | nil => intro reps S B t; simp [kmersFlush]
  | cons u us ih =>
    intro reps S B t
    have hrec : ∀ B', (kmersFlush us reps (Function.update S u (S u + reps)) B').1 t =
        Function.update S u (S u + reps) t + reps * us.count t := fun B' => ih reps _ B' t
    have hcnt : ((u :: us).count t : Int) =
        (us.count t : Int) + (if t = u then 1 else 0) := by
      rw [List.count_cons]
      by_cases h : t = u
      · simp [h]
      · simp [h, Ne.symm h]
    unfold kmersFlush
    by_cases hc : S u + reps = reps
    · rw [if_pos hc, hrec]
      rw [Function.update_apply]
      by_cases h : t = u
      · rw [if_pos h, hcnt, if_pos h, h]
        ring
      · rw [if_neg h, hcnt, if_neg h]
        ring
    · rw [if_neg hc, hrec]
      rw [Function.update_apply]
      by_cases h : t = u
      · rw [if_pos h, hcnt, if_pos h, h]
        ring
      · rw [if_neg h, hcnt, if_neg h]
        ring

/-- The ids a flush appends: the first occurrences, in vector order, of the
ids whose score is zero (marking an id as taken by setting its score away
from zero). -/
def filterFirst (S : Nat → Int) : List Nat → List Nat
  | [] => []
  | t :: ts =>
    if S t = 0 then t :: filterFirst (Function.update S t 1) ts
    else filterFirst S ts

theorem filterFirst_nil {S : Nat → Int} : ∀ {vec : List Nat},
    (∀ t ∈ vec, S t ≠ 0) → filterFirst S vec = [] := by
  intro vec
  induction vec with
  | nil => intro _; rfl
  | cons u us ih =>
    intro h
    unfold filterFirst
    rw [if_neg (h u (by simp))]
    exact ih (fun t ht => h t (by simp [ht]))

theorem kmersFlush_bests : ∀ (vec : List Nat) (reps : Int) (S S' : Nat → Int)
    (B : List Nat), 1 ≤ reps → (∀ t, 0 ≤ S t) → (∀ t, S t = 0 ↔ S' t = 0) →
    (kmersFlush vec reps S B).2 = B ++ filterFirst S' vec := by
  intro vec
  induction vec with
  | nil => intro reps S S' B _ _ _; simp [kmersFlush, filterFirst]
  | cons u us ih =>
    intro reps S S' B hr hpos hz
    unfold kmersFlush filterFirst
    by_cases hSu : S u = 0
    · rw [if_pos (by omega : S u + reps = reps), if_pos ((hz u).mp hSu)]
      rw [ih reps _ (Function.update S' u 1) _ hr ?_ ?_]
      · rw [List.append_assoc]
        rfl
      · intro t
        rw [Function.update_apply]
        by_cases h : t = u
        · rw [if_pos h]; omega
        · rw [if_neg h]; exact hpos t
      · intro t
        rw [Function.update_apply, Function.update_apply]
        by_cases h : t = u
        · rw [if_pos h, if_pos h]
          constructor <;> intro <;> omega
        · rw [if_neg h, if_neg h]; exact hz t
    · have hSupos : 0 < S u := lt_of_le_of_ne (hpos u) (Ne.symm hSu)
      rw [if_neg (by omega : ¬ S u + reps = reps),
        if_neg (fun h => hSu ((hz u).mpr h))]
      apply ih reps _ S' _ hr
      · intro t
        rw [Function.update_apply]
        by_cases h : t = u
        · rw [if_pos h]; omega
        · rw [if_neg h]; exact hpos t
      · intro t
        rw [Function.update_apply]
        by_cases h : t = u
        · rw [if_pos h, h]
          constructor
          · intro hh; exact absurd hh (by omega)
          · intro hh; exact absurd ((hz u).mpr hh) (by omega)
        · rw [if_neg h]; exact hz t

theorem kmersFlush_nonneg {vec : List Nat} {reps : Int} {S : Nat → Int}
    {B : List Nat} (hr : 0 ≤ reps) (hpos : ∀ t, 0 ≤ S t) :
    ∀ t, 0 ≤ (kmersFlush vec reps S B).1 t := by
  intro t
  rw [kmersFlush_score]
  have : (0 : Int) ≤ reps * vec.count t :=
    mul_nonneg hr (Int.natCast_nonneg _)
  have := hpos t
  omega

theorem kmersFlush_bests_mono : ∀ (vec : List Nat) (reps : Int) (S : Nat → Int)
    (B : List Nat) (y : Nat), y ∈ B → y ∈ (kmersFlush vec reps S B).2 := by
  intro vec
  induction vec with
  | nil => intro reps S B y hy; exact hy
  | cons u us ih =>
    intro reps S B y hy
    unfold kmersFlush
    by_cases hc : S u + reps = reps
    · rw [if_pos hc]
      exact ih _ _ _ y (by simp [hy])
    · rw [if_neg hc]
      exact ih _ _ _ y hy

theorem kmersFlush_listed : ∀ (vec : List Nat) (reps : Int) (S : Nat → Int)
    (B : List Nat), (∀ t, S t ≠ 0 → t ∈ B) →
    ∀ t, (kmersFlush vec reps S B).1 t ≠ 0 → t ∈ (kmersFlush vec reps S B).2 := by
  intro vec
  induction vec with
  | nil => intro reps S B h t ht; exact h t ht
  | cons u us ih =>
    intro reps S B h t ht
    unfold kmersFlush at ht ⊢
    by_cases hc : S u + reps = reps
    · rw [if_pos hc] at ht ⊢
      apply ih _ _ _ ?_ t ht
      intro x hx
      rw [Function.update_apply] at hx
      by_cases hxu : x = u
      · simp [hxu]
      · rw [if_neg hxu] at hx
        simp [h x hx]
    · rw [if_neg hc] at ht ⊢
      apply ih _ _ _ ?_ t ht
      intro x hx
      rw [Function.update_apply] at hx
      by_cases hxu : x = u
      · exact hxu ▸ h u (by omega)
      · rw [if_neg hxu] at hx
        exact h x hx

/-! ### Scanner lemmas: run compression is equivalent to per-hit flushing -/

theorem kmersTail_none {db : HashKMA} {st : ScanState} (h : st.last = none) :
    kmersTail db st = { st with reps := 0 } := by
  unfold kmersTail
  rw [h]

theorem kmersTail_some {db : HashKMA} {st : ScanState} {l : Nat}
    (h : st.last = some l) :
    kmersTail db st =
      { last := some l, reps := 0,
        Score := (kmersFlush (db.vec l) st.reps st.Score st.bests).1,
        bests := (kmersFlush (db.vec l) st.reps st.Score st.bests).2 } := by
  unfold kmersTail
  rw [h]

theorem kmersHit_none {db : HashKMA} {v : Nat} {st : ScanState}
    (h : st.last = none) :
    kmersHit db v st = { st with last := some v, reps := 1 } := by
  unfold kmersHit
  rw [h]

theorem kmersHit_same {db : HashKMA} {v : Nat} {st : ScanState}
    (h : st.last = some v) :
    kmersHit db v st = { st with reps := st.reps + 1 } := by
  unfold kmersHit
  rw [h]
  split
  next h2 => exact Option.noConfusion h2
  next l h2 =>
    cases Option.some.inj h2
    rw [if_pos rfl]

theorem kmersHit_new {db : HashKMA} {v : Nat} {st : ScanState} {l : Nat}
    (h : st.last = some l) (hv : v ≠ l) :
    kmersHit db v st =
      { last := some v, reps := 1,
        Score := (kmersFlush (db.vec l) st.reps st.Score st.bests).1,
        bests := (kmersFlush (db.vec l) st.reps st.Score st.bests).2 } := by
  unfold kmersHit
  rw [h]
  split
  next h2 => exact Option.noConfusion h2
  next m h2 =>
    cases Option.some.inj h2
    rw [if_neg hv]

theorem kmersHit_inv {db : HashKMA} {v : Nat} {st : ScanState}
    (hpos : ∀ t, 0 ≤ st.Score t) (hreps : st.last ≠ none → 1 ≤ st.reps) :
    (∀ t, 0 ≤ (kmersHit db v st).Score t) ∧
    ((kmersHit db v st).last ≠ none → 1 ≤ (kmersHit db v st).reps) := by
  cases hl : st.last with
  | none =>
    rw [kmersHit_none hl]
    exact ⟨hpos, fun _ => le_refl 1⟩
  | some l =>
    have hr1 : 1 ≤ st.reps := hreps (by rw [hl]; simp)
    by_cases hv : v = l
    · subst hv
      rw [kmersHit_same hl]
      exact ⟨hpos, fun _ => (by omega : (1 : Int) ≤ st.reps + 1)⟩
    · rw [kmersHit_new hl hv]
      exact ⟨kmersFlush_nonneg (by omega) hpos, fun _ => le_refl 1⟩

theorem hit_tail_eq (db : HashKMA) (v : Nat) (st : ScanState)
    (hpos : ∀ t, 0 ≤ st.Score t) (hreps : st.last ≠ none → 1 ≤ st.reps) :
    ((kmersTail db (kmersHit db v st)).Score, (kmersTail db (kmersHit db v st)).bests) =
      kmersFlush (db.vec v) 1 (kmersTail db st).Score (kmersTail db st).bests := by
  cases hl : st.last with
  | none =>
    rw [kmersHit_none hl, kmersTail_some (l := v) rfl, kmersTail_none hl]
  | some l =>
    have hr1 : 1 ≤ st.reps := hreps (by rw [hl]; simp)
    by_cases hv : v = l
    · subst hv
      rw [kmersHit_same hl, @kmersTail_some db { st with reps := st.reps + 1 } v hl,
        kmersTail_some (l := v) hl]
      refine Prod.ext ?_ ?_
      · funext t
        show (kmersFlush (db.vec v) (st.reps + 1) st.Score st.bests).1 t =
          (kmersFlush (db.vec v) 1
            (kmersFlush (db.vec v) st.reps st.Score st.bests).1
            (kmersFlush (db.vec v) st.reps st.Score st.bests).2).1 t
        rw [kmersFlush_score, kmersFlush_score, kmersFlush_score]
        ring
      · show (kmersFlush (db.vec v) (st.reps + 1) st.Score st.bests).2 =
          (kmersFlush (db.vec v) 1
            (kmersFlush (db.vec v) st.reps st.Score st.bests).1
            (kmersFlush (db.vec v) st.reps st.Score st.bests).2).2
        have hS1pos : ∀ t, 0 ≤ (kmersFlush (db.vec v) st.reps st.Score st.bests).1 t :=
          kmersFlush_nonneg (by omega) hpos
        rw [kmersFlush_bests (db.vec v) (st.reps + 1) st.Score st.Score st.bests
            (by omega) hpos (fun t => Iff.rfl),
          kmersFlush_bests (db.vec v) 1 _ _ _ (le_refl 1) hS1pos (fun t => Iff.rfl),
          kmersFlush_bests (db.vec v) st.reps st.Score st.Score st.bests
            hr1 hpos (fun t => Iff.rfl)]
        have hnil : filterFirst
            (kmersFlush (db.vec v) st.reps st.Score st.bests).1 (db.vec v) = [] := by
          apply filterFirst_nil
          intro t ht
          rw [kmersFlush_score]
          have hc : (1 : Int) ≤ (db.vec v).count t := by
            have := List.count_pos_iff_mem.mpr ht
            omega
          have hmul : st.reps * 1 ≤ st.reps * ((db.vec v).count t : Int) :=
            mul_le_mul_of_nonneg_left hc (by omega)
          have := hpos t
          omega
        rw [hnil, List.append_nil]
    · rw [kmersHit_new hl hv, kmersTail_some (l := v) rfl, kmersTail_some (l := l) hl]

theorem kmersScan_inv (db : HashKMA) : ∀ (hits : List Nat) (st : ScanState),
    (∀ t, 0 ≤ st.Score t) → (st.last ≠ none → 1 ≤ st.reps) →
    (∀ t, 0 ≤ (kmersScan db hits st).Score t) ∧
    ((kmersScan db hits st).last ≠ none → 1 ≤ (kmersScan db hits st).reps) := by
  intro hits
  induction hits with
  | nil => intro st hpos hreps; exact ⟨hpos, hreps⟩
  | cons c cs ih =>
    intro st hpos hreps
    unfold kmersScan
    cases db.lookup c with
    | none => exact ih st hpos hreps
    | some v =>
      obtain ⟨h1, h2⟩ := kmersHit_inv (v := v) hpos hreps
      exact ih _ h1 h2

theorem kmersTail_nonneg {db : HashKMA} {st : ScanState}
    (hpos : ∀ t, 0 ≤ st.Score t) (hreps : st.last ≠ none → 1 ≤ st.reps) :
    ∀ t, 0 ≤ (kmersTail db st).Score t := by
  cases hl : st.last with
  | none => rw [kmersTail_none hl]; exact hpos
  | some l =>
    rw [kmersTail_some hl]
    exact kmersFlush_nonneg (by have := hreps (by rw [hl]; simp); omega) hpos

theorem kmersScan_nocompress_eq (db : HashKMA) :
    ∀ (hits : List Nat) (st : ScanState),
    (∀ t, 0 ≤ st.Score t) → (st.last ≠ none → 1 ≤ st.reps) →
    ((kmersTail db (kmersScan db hits st)).Score,
      (kmersTail db (kmersScan db hits st)).bests) =
      kmersScanNC db hits ((kmersTail db st).Score, (kmersTail db st).bests) := by
  intro hits
  induction hits with
  | nil => intro st _ _; rfl
  | cons c cs ih =>
    intro st hpos hreps
    show ((kmersTail db (kmersScan db (c :: cs) st)).Score,
      (kmersTail db (kmersScan db (c :: cs) st)).bests) =
      kmersScanNC db (c :: cs) ((kmersTail db st).Score, (kmersTail db st).bests)
    unfold kmersScan kmersScanNC
    cases db.lookup c with
    | none => exact ih st hpos hreps
    | some v =>
      obtain ⟨h1, h2⟩ := kmersHit_inv (v := v) hpos hreps
      rw [ih (kmersHit db v st) h1 h2, hit_tail_eq db v st hpos hreps]

theorem kmersSweep_nonneg (thr : Nat → Int) : ∀ (B : List Nat) (S : Nat → Int),
    (∀ t, 0 ≤ S t) → ∀ t, 0 ≤ (kmersSweep thr S B).1 t := by
  intro B
  induction B with
  | nil => intro S h t; exact h t
  | cons u us ih =>
    intro S h t
    have hupd : ∀ x, 0 ≤ Function.update S u 0 x := by
      intro x
      rw [Function.update_apply]
      by_cases hx : x = u
      · rw [if_pos hx]
      · rw [if_neg hx]; exact h x
    unfold kmersSweep
    by_cases hc : S u < thr u
    · rw [if_pos hc]; exact ih _ hupd t
    · rw [if_neg hc]; exact ih _ hupd t

theorem kmersScanNC_fromInit (db : HashKMA) (hits : List Nat) (S : Nat → Int)
    (hpos : ∀ t, 0 ≤ S t) :
    ((kmersTail db (kmersScan db hits (kmersInit S))).Score,
     (kmersTail db (kmersScan db hits (kmersInit S))).bests) =
      kmersScanNC db hits (S, []) :=
  kmersScan_nocompress_eq db hits (kmersInit S) hpos (fun h0 => absurd rfl h0)

theorem kmersScanNC_fromReset (db : HashKMA) (hits : List Nat) (st : ScanState)
    (hpos : ∀ t, 0 ≤ st.Score t) :
    ((kmersTail db (kmersScan db hits (kmersReset st))).Score,
     (kmersTail db (kmersScan db hits (kmersReset st))).bests) =
      kmersScanNC db hits (st.Score, st.bests) :=
  kmersScan_nocompress_eq db hits (kmersReset st) hpos (fun h0 => absurd rfl h0)

theorem kmersPassState_nc {M : Type} (db : HashKMA) (cm : Cmer M) (e : Int)
    (S : Nat → Int) (q : CompDNA) (hpos : ∀ t, 0 ≤ S t) :
    ((kmersPassState db cm e S q).Score, (kmersPassState db cm e S q).bests) =
      kmersPassStateNC db cm e S q := by
  unfold kmersPassState kmersPassStateNC
  exact kmersScanNC_fromInit db _ S hpos

theorem kmersPassState_nonneg {M : Type} (db : HashKMA) (cm : Cmer M) (e : Int)
    (S : Nat → Int) (q : CompDNA) (hpos : ∀ t, 0 ≤ S t) :
    ∀ t, 0 ≤ (kmersPassState db cm e S q).Score t := by
  unfold kmersPassState
  exact kmersTail_nonneg
    (kmersScan_inv db _ (kmersInit S) hpos (fun h0 => absurd rfl h0)).1
    (kmersScan_inv db _ (kmersInit S) hpos (fun h0 => absurd rfl h0)).2

theorem kmersPrefixState_nc {M : Type} (db : HashKMA) (cm : Cmer M) (m0 : M)
    (S : Nat → Int) (qseq_fw qseq_rc : CompDNA) (hpos : ∀ t, 0 ≤ S t) :
    ((kmersPrefixState db cm m0 S qseq_fw qseq_rc).Score,
     (kmersPrefixState db cm m0 S qseq_fw qseq_rc).bests) =
      kmersPrefixStateNC db cm m0 S qseq_fw qseq_rc := by
  unfold kmersPrefixState kmersPrefixStateNC
  have hp1 : ∀ t, 0 ≤ (kmersTail db (kmersScan db
      (kmersPPass cm db.kmersize db.pref_len db.pref db.flag qseq_fw m0).1
      (kmersInit S))).Score t :=
    kmersTail_nonneg
      (kmersScan_inv db _ (kmersInit S) hpos (fun h0 => absurd rfl h0)).1
      (kmersScan_inv db _ (kmersInit S) hpos (fun h0 => absurd rfl h0)).2
  rw [kmersScanNC_fromReset db _ _ hp1, kmersScanNC_fromInit db _ S hpos]

theorem kmersFwSwept_nc {M : Type} (db : HashKMA) (cm : Cmer M) (S : Nat → Int)
    (L : Nat → Int) (qseq_fw : CompDNA) (hpos : ∀ t, 0 ≤ S t) :
    kmersFwSwept db cm S L qseq_fw = kmersFwSweptNC db cm S L qseq_fw := by
  unfold kmersFwSwept kmersFwSweptNC
  have h := kmersPassState_nc db cm (kmersSeqend db qseq_fw) S qseq_fw hpos
  have h1 : (kmersPassState db cm (kmersSeqend db qseq_fw) S qseq_fw).Score =
      (kmersPassStateNC db cm (kmersSeqend db qseq_fw) S qseq_fw).1 :=
    congrArg Prod.fst h
  have h2 : (kmersPassState db cm (kmersSeqend db qseq_fw) S qseq_fw).bests =
      (kmersPassStateNC db cm (kmersSeqend db qseq_fw) S qseq_fw).2 :=
    congrArg Prod.snd h
  rw [h1, h2]

theorem kmersFwSwept_nonneg {M : Type} (db : HashKMA) (cm : Cmer M)
    (S : Nat → Int) (L : Nat → Int) (qseq_fw : CompDNA) (hpos : ∀ t, 0 ≤ S t) :
    ∀ t, 0 ≤ (kmersFwSwept db cm S L qseq_fw).1 t := by
  unfold kmersFwSwept
  exact kmersSweep_nonneg _ _ _
    (kmersPassState_nonneg db cm (kmersSeqend db qseq_fw) S qseq_fw hpos)

theorem kmersRcSwept_nc {M : Type} (db : HashKMA) (cm : Cmer M) (S : Nat → Int)
    (L : Nat → Int) (qseq_fw qseq_rc : CompDNA) (hpos : ∀ t, 0 ≤ S t) :
    kmersRcSwept db cm S L qseq_fw qseq_rc = kmersRcSweptNC db cm S L qseq_fw qseq_rc := by
  unfold kmersRcSwept kmersRcSweptNC
  have hpos2 : ∀ t, 0 ≤ (kmersFwSwept db cm S L qseq_fw).1 t :=
    kmersFwSwept_nonneg db cm S L qseq_fw hpos
  have h := kmersPassState_nc db cm (kmersSeqend db qseq_fw)
    ((kmersFwSwept db cm S L qseq_fw).1) qseq_rc hpos2
  have h1 : (kmersPassState db cm (kmersSeqend db qseq_fw)
      ((kmersFwSwept db cm S L qseq_fw).1) qseq_rc).Score =
      (kmersPassStateNC db cm (kmersSeqend db qseq_fw)
        ((kmersFwSwept db cm S L qseq_fw).1) qseq_rc).1 :=
    congrArg Prod.fst h
  have h2 : (kmersPassState db cm (kmersSeqend db qseq_fw)
      ((kmersFwSwept db cm S L qseq_fw).1) qseq_rc).bests =
      (kmersPassStateNC db cm (kmersSeqend db qseq_fw)
        ((kmersFwSwept db cm S L qseq_fw).1) qseq_rc).2 :=
    congrArg Prod.snd h
  rw [h1, h2, kmersFwSwept_nc db cm S L qseq_fw hpos]

/-- C5: Compression equivalence — for every database, minimizer machinery,
input pair of packed sequences and non-negative Score scratch (the scratch
is all-zero at every call site), reassign_kmers with the (last, reps) run
compression returns exactly the same Score array and the same bestTemplates
list as the uncompressed variant that flushes every hash hit individually
with reps 1; in this embedding equal vector indices denote equal template-id
lists, the pointer-equality proviso of the claim. -/
theorem claimC5_compression_equiv {M : Type} (db : HashKMA) (cm : Cmer M)
    (m0 : M) (Score : Nat → Int) (template_lengths : Nat → Int)
    (qseq_fw qseq_rc : CompDNA) (hpos : ∀ t, 0 ≤ Score t) :
    reassign_kmers db cm m0 Score template_lengths qseq_fw qseq_rc =
      reassign_kmers_nocompress db cm m0 Score template_lengths qseq_fw qseq_rc := by
  unfold reassign_kmers reassign_kmers_nocompress
  by_cases hp : db.pref_len ≠ 0
  · rw [if_pos hp, if_pos hp]
    have h := kmersPrefixState_nc db cm m0 Score qseq_fw qseq_rc hpos
    have h1 : (kmersPrefixState db cm m0 Score qseq_fw qseq_rc).Score =
        (kmersPrefixStateNC db cm m0 Score qseq_fw qseq_rc).1 :=
      congrArg Prod.fst h
    have h2 : (kmersPrefixState db cm m0 Score qseq_fw qseq_rc).bests =
        (kmersPrefixStateNC db cm m0 Score qseq_fw qseq_rc).2 :=
      congrArg Prod.snd h
    rw [h1, h2]
  · rw [if_neg hp, if_neg hp]
    by_cases hq : db.pref ≠ 0
    · rw [if_pos hq, if_pos hq,
        kmersFwSwept_nc db cm Score template_lengths qseq_fw hpos]
    · rw [if_neg hq, if_neg hq,
        kmersFwSwept_nc db cm Score template_lengths qseq_fw hpos,
        kmersRcSwept_nc db cm Score template_lengths qseq_fw qseq_rc hpos]

/-- Witness for C5: the equivalence at a concrete database, trivial
minimizer, all-zero scratch and empty sequences. -/
theorem claimC5_witness :
    reassign_kmers ⟨1, 2, 0, 0, 0, 1, fun _ => none, fun _ => []⟩
      (⟨fun _ => (), fun _ k => ((), k), fun _ k => ((), k)⟩ : Cmer Unit) ()
      (fun _ => 0) (fun _ => 0) ⟨[], []⟩ ⟨[], []⟩ =
    reassign_kmers_nocompress ⟨1, 2, 0, 0, 0, 1, fun _ => none, fun _ => []⟩
      ⟨fun _ => (), fun _ k => ((), k), fun _ k => ((), k)⟩ ()
      (fun _ => 0) (fun _ => 0) ⟨[], []⟩ ⟨[], []⟩ :=
  claimC5_compression_equiv _ _ _ _ _ _ _ (fun _ => le_refl 0)

theorem kmersHit_listed {db : HashKMA} {v : Nat} {st : ScanState}
    (h : ∀ t, st.Score t ≠ 0 → t ∈ st.bests) :
    ∀ t, (kmersHit db v st).Score t ≠ 0 → t ∈ (kmersHit db v st).bests := by
  cases hl : st.last with
  | none => rw [kmersHit_none hl]; exact h
  | some l =>
    by_cases hv : v = l
    · subst hv
      rw [kmersHit_same hl]
      exact h
    · rw [kmersHit_new hl hv]
      exact kmersFlush_listed (db.vec l) st.reps st.Score st.bests h

theorem kmersTail_listed {db : HashKMA} {st : ScanState}
    (h : ∀ t, st.Score t ≠ 0 → t ∈ st.bests) :
    ∀ t, (kmersTail db st).Score t ≠ 0 → t ∈ (kmersTail db st).bests := by
  cases hl : st.last with
  | none => rw [kmersTail_none hl]; exact h
  | some l =>
    rw [kmersTail_some hl]
    exact kmersFlush_listed (db.vec l) st.reps st.Score st.bests h

theorem kmersScan_listed (db : HashKMA) : ∀ (hits : List Nat) (st : ScanState),
    (∀ t, st.Score t ≠ 0 → t ∈ st.bests) →
    ∀ t, (kmersScan db hits st).Score t ≠ 0 → t ∈ (kmersScan db hits st).bests := by
  intro hits
  induction hits with
  | nil => intro st h; exact h
  | cons c cs ih =>
    intro st h
    unfold kmersScan
    cases db.lookup c with
    | none => exact ih st h
    | some v => exact ih _ (kmersHit_listed h)

theorem kmersSweep_zero (thr : Nat → Int) : ∀ (B : List Nat) (S : Nat → Int),
    (∀ t, S t ≠ 0 → t ∈ B) → ∀ t, (kmersSweep thr S B).1 t = 0 := by
  intro B
  induction B with
  | nil =>
    intro S h t
    by_contra hne
    exact absurd (h t hne) (List.not_mem_nil t)
  | cons u us ih =>
    intro S h t
    have hupd : ∀ x, Function.update S u 0 x ≠ 0 → x ∈ us := by
      intro x hx
      rw [Function.update_apply] at hx
      by_cases hxu : x = u
      · rw [if_pos hxu] at hx
        exact absurd rfl hx
      · rw [if_neg hxu] at hx
        cases List.mem_cons.mp (h x hx) with
        | inl he => exact absurd he hxu
        | inr hm => exact hm
    unfold kmersSweep
    by_cases hc : S u < thr u
    · rw [if_pos hc]; exact ih _ hupd t
    · rw [if_neg hc]; exact ih _ hupd t

theorem kmersPassState_listed {M : Type} (db : HashKMA) (cm : Cmer M) (e : Int)
    (S : Nat → Int) (q : CompDNA) (hzero : ∀ t, S t = 0) :
    ∀ t, (kmersPassState db cm e S q).Score t ≠ 0 →
      t ∈ (kmersPassState db cm e S q).bests := by
  unfold kmersPassState
  exact kmersTail_listed
    (kmersScan_listed db _ (kmersInit S) (fun t ht => absurd (hzero t) ht))

theorem kmersPrefixState_listed {M : Type} (db : HashKMA) (cm : Cmer M) (m0 : M)
    (S : Nat → Int) (qseq_fw qseq_rc : CompDNA) (hzero : ∀ t, S t = 0) :
    ∀ t, (kmersPrefixState db cm m0 S qseq_fw qseq_rc).Score t ≠ 0 →
      t ∈ (kmersPrefixState db cm m0 S qseq_fw qseq_rc).bests := by
  unfold kmersPrefixState
  exact kmersTail_listed (kmersScan_listed db _ _
    (kmersTail_listed
      (kmersScan_listed db _ (kmersInit S) (fun t ht => absurd (hzero t) ht))))

/-- C9: Score scratch invariant — whenever the Score array is all-zero at
entry, the Score array reassign_kmers returns is again all-zero: every
template whose score became nonzero during a pass was appended to the
candidate bucket, and the evaluation sweep zeroes the score of every listed
template, in all three pass configurations (and the reverse-complement pass
starts from the already re-zeroed scratch the forward sweep left behind). -/
theorem claimC9_score_scratch {M : Type} (db : HashKMA) (cm : Cmer M) (m0 : M)
    (Score : Nat → Int) (template_lengths : Nat → Int)
    (qseq_fw qseq_rc : CompDNA) (hzero : ∀ t, Score t = 0) :
    ∀ t, (reassign_kmers db cm m0 Score template_lengths qseq_fw qseq_rc).1 t = 0 := by
  intro t
  unfold reassign_kmers
  by_cases hp : db.pref_len ≠ 0
  · rw [if_pos hp]
    exact kmersSweep_zero _ _ _
      (kmersPrefixState_listed db cm m0 Score qseq_fw qseq_rc hzero) t
  · rw [if_neg hp]
    have hfwzero : ∀ u, (kmersFwSwept db cm Score template_lengths qseq_fw).1 u = 0 := by
      intro u
      unfold kmersFwSwept
      exact kmersSweep_zero _ _ _
        (kmersPassState_listed db cm (kmersSeqend db qseq_fw) Score qseq_fw hzero) u
    by_cases hq : db.pref ≠ 0
    · rw [if_pos hq]
      exact hfwzero t
    · rw [if_neg hq]
      show (kmersRcSwept db cm Score template_lengths qseq_fw qseq_rc).1 t = 0
      unfold kmersRcSwept
      exact kmersSweep_zero _ _ _
        (kmersPassState_listed db cm (kmersSeqend db qseq_fw)
          ((kmersFwSwept db cm Score template_lengths qseq_fw).1) qseq_rc hfwzero) t

/-- Witness for C9: concrete database, trivial minimizer, all-zero scratch. -/
theorem claimC9_witness :
    (reassign_kmers ⟨1, 2, 0, 0, 0, 1, fun _ => none, fun _ => []⟩
      (⟨fun _ => (), fun _ k => ((), k), fun _ k => ((), k)⟩ : Cmer Unit) ()
      (fun _ => 0) (fun _ => 0) ⟨[], []⟩ ⟨[], []⟩).1 5 = 0 :=
  claimC9_score_scratch _ _ _ _ _ _ _ (fun _ => rfl) 5

theorem kmersFlush_nodup : ∀ (vec : List Nat) (reps : Int) (S : Nat → Int)
    (B : List Nat), 1 ≤ reps → (∀ t, 0 ≤ S t) → B.Nodup →
    (∀ t ∈ B, S t ≠ 0) →
    (kmersFlush vec reps S B).2.Nodup ∧
      ∀ t ∈ (kmersFlush vec reps S B).2, (kmersFlush vec reps S B).1 t ≠ 0 := by
  intro vec
  induction vec with
  | nil => intro reps S B _ _ hnd hmem; exact ⟨hnd, hmem⟩
  | cons u us ih =>
    intro reps S B hr hpos hnd hmem
    unfold kmersFlush
    by_cases hc : S u + reps = reps
    · rw [if_pos hc]
      apply ih
      · exact hr
      · intro x
        rw [Function.update_apply]
        by_cases hx : x = u
        · rw [if_pos hx]; omega
        · rw [if_neg hx]; exact hpos x
      · have hu : u ∉ B := fun hin => hmem u hin (by omega)
        rw [List.nodup_append]
        refine ⟨hnd, List.nodup_singleton u, ?_⟩
        intro a haB hau
        rw [List.mem_singleton] at hau
        exact hu (hau ▸ haB)
      · intro x hx
        rw [Function.update_apply]
        by_cases hxu : x = u
        · rw [if_pos hxu]; omega
        · rw [if_neg hxu]
          rcases List.mem_append.mp hx with hxB | hxs
          · exact hmem x hxB
          · exact absurd (List.mem_singleton.mp hxs) hxu
    · rw [if_neg hc]
      apply ih
      · exact hr
      · intro x
        rw [Function.update_apply]
        by_cases hx : x = u
        · rw [if_pos hx]
          have := hpos u
          omega
        · rw [if_neg hx]; exact hpos x
      · exact hnd
      · intro x hx
        rw [Function.update_apply]
        by_cases hxu : x = u
        · rw [if_pos hxu]
          have := hpos u
          omega
        · rw [if_neg hxu]; exact hmem x hx

theorem kmersHit_nodup {db : HashKMA} {v : Nat} {st : ScanState}
    (hpos : ∀ t, 0 ≤ st.Score t) (hreps : st.last ≠ none → 1 ≤ st.reps)
    (hnd : st.bests.Nodup) (hmem : ∀ t ∈ st.bests, st.Score t ≠ 0) :
    (kmersHit db v st).bests.Nodup ∧
      ∀ t ∈ (kmersHit db v st).bests, (kmersHit db v st).Score t ≠ 0 := by
  cases hl : st.last with
  | none => rw [kmersHit_none hl]; exact ⟨hnd, hmem⟩
  | some l =>
    have hr1 : 1 ≤ st.reps := hreps (by rw [hl]; simp)
    by_cases hv : v = l
    · subst hv; rw [kmersHit_same hl]; exact ⟨hnd, hmem⟩
    · rw [kmersHit_new hl hv]
      exact kmersFlush_nodup (db.vec l) st.reps st.Score st.bests hr1 hpos hnd hmem

theorem kmersTail_nodup {db : HashKMA} {st : ScanState}
    (hpos : ∀ t, 0 ≤ st.Score t) (hreps : st.last ≠ none → 1 ≤ st.reps)
    (hnd : st.bests.Nodup) (hmem : ∀ t ∈ st.bests, st.Score t ≠ 0) :
    (kmersTail db st).bests.Nodup ∧
      ∀ t ∈ (kmersTail db st).bests, (kmersTail db st).Score t ≠ 0 := by
  cases hl : st.last with
  | none => rw [kmersTail_none hl]; exact ⟨hnd, hmem⟩
  | some l =>
    have hr1 : 1 ≤ st.reps := hreps (by rw [hl]; simp)
    rw [kmersTail_some hl]
    exact kmersFlush_nodup (db.vec l) st.reps st.Score st.bests hr1 hpos hnd hmem

theorem kmersScan_nodup (db : HashKMA) : ∀ (hits : List Nat) (st : ScanState),
    (∀ t, 0 ≤ st.Score t) → (st.last ≠ none → 1 ≤ st.reps) →
    st.bests.Nodup → (∀ t ∈ st.bests, st.Score t ≠ 0) →
    (kmersScan db hits st).bests.Nodup ∧
      ∀ t ∈ (kmersScan db hits st).bests, (kmersScan db hits st).Score t ≠ 0 := by
  intro hits
  induction hits with
  | nil => intro st _ _ hnd hmem; exact ⟨hnd, hmem⟩
  | cons c cs ih =>
    intro st hpos hreps hnd hmem
    unfold kmersScan
    cases db.lookup c with
    | none => exact ih st hpos hreps hnd hmem
    | some v =>
      obtain ⟨h1, h2⟩ := kmersHit_inv (v := v) hpos hreps
      obtain ⟨h3, h4⟩ := kmersHit_nodup hpos hreps hnd hmem
      exact ih _ h1 h2 h3 h4

theorem kmersSweep_mem (thr : Nat → Int) : ∀ (B : List Nat) (S : Nat → Int),
    B.Nodup → ∀ t, (t ∈ (kmersSweep thr S B).2 ↔ t ∈ B ∧ thr t ≤ S t) := by
  intro B
  induction B with
  | nil => intro S _ t; simp [kmersSweep]
  | cons u us ih =>
    intro S hnd t
    have hndus : us.Nodup := (List.nodup_cons.mp hnd).2
    have hunus : u ∉ us := (List.nodup_cons.mp hnd).1
    unfold kmersSweep
    by_cases hc : S u < thr u
    · rw [if_pos hc]
      rw [ih _ hndus t]
      constructor
      · rintro ⟨htus, hts⟩
        have htu : t ≠ u := fun he => hunus (he ▸ htus)
        rw [Function.update_apply, if_neg htu] at hts
        exact ⟨List.mem_cons_of_mem u htus, hts⟩
      · rintro ⟨htc, hts⟩
        rcases List.mem_cons.mp htc with he | htus
        · subst he
          exact absurd hts (not_le.mpr hc)
        · have htu : t ≠ u := fun he2 => hunus (he2 ▸ htus)
          rw [Function.update_apply, if_neg htu]
          exact ⟨htus, hts⟩
    · rw [if_neg hc]
      show t ∈ u :: (kmersSweep thr (Function.update S u 0) us).2 ↔ _
      rw [List.mem_cons, ih _ hndus t]
      constructor
      · rintro (he | ⟨htus, hts⟩)
        · subst he
          exact ⟨List.mem_cons_self t us, not_lt.mp hc⟩
        · have htu : t ≠ u := fun he2 => hunus (he2 ▸ htus)
          rw [Function.update_apply, if_neg htu] at hts
          exact ⟨List.mem_cons_of_mem u htus, hts⟩
      · rintro ⟨htc, hts⟩
        rcases List.mem_cons.mp htc with he | htus
        · exact Or.inl he
        · have htu : t ≠ u := fun he2 => hunus (he2 ▸ htus)
          right
          rw [Function.update_apply, if_neg htu]
          exact ⟨htus, hts⟩

theorem kmersPassState_nodup {M : Type} (db : HashKMA) (cm : Cmer M) (e : Int)
    (S : Nat → Int) (q : CompDNA) (hpos : ∀ t, 0 ≤ S t) :
    (kmersPassState db cm e S q).bests.Nodup := by
  unfold kmersPassState
  obtain ⟨h1, h2⟩ := kmersScan_inv db (kmersPass cm db.kmersize db.flag e q)
    (kmersInit S) hpos (fun h0 => absurd rfl h0)
  obtain ⟨h3, h4⟩ := kmersScan_nodup db (kmersPass cm db.kmersize db.flag e q)
    (kmersInit S) hpos (fun h0 => absurd rfl h0) List.nodup_nil
    (fun x hx => absurd hx (List.not_mem_nil x))
  exact (kmersTail_nodup h1 h2 h3 h4).1

theorem kmersTwoPass_nodup (db : HashKMA) (h1 h2 : List Nat) (S : Nat → Int)
    (hpos : ∀ t, 0 ≤ S t) :
    (kmersTail db (kmersScan db h2 (kmersReset (kmersTail db (kmersScan db h1
      (kmersInit S)))))).bests.Nodup := by
  obtain ⟨ha1, ha2⟩ := kmersScan_inv db h1 (kmersInit S) hpos (fun h0 => absurd rfl h0)
  obtain ⟨ha3, ha4⟩ := kmersScan_nodup db h1 (kmersInit S) hpos
    (fun h0 => absurd rfl h0) List.nodup_nil
    (fun x hx => absurd hx (List.not_mem_nil x))
  have hb1 : ∀ x, 0 ≤ (kmersTail db (kmersScan db h1 (kmersInit S))).Score x :=
    kmersTail_nonneg ha1 ha2
  obtain ⟨hb3, hb4⟩ := kmersTail_nodup ha1 ha2 ha3 ha4
  obtain ⟨hc1, hc2⟩ := kmersScan_inv db h2
    (kmersReset (kmersTail db (kmersScan db h1 (kmersInit S)))) hb1
    (fun h0 => absurd rfl h0)
  obtain ⟨hc3, hc4⟩ := kmersScan_nodup db h2
    (kmersReset (kmersTail db (kmersScan db h1 (kmersInit S)))) hb1
    (fun h0 => absurd rfl h0) hb3 hb4
  exact (kmersTail_nodup hc1 hc2 hc3 hc4).1

theorem kmersPrefixState_nodup {M : Type} (db : HashKMA) (cm : Cmer M) (m0 : M)
    (S : Nat → Int) (qseq_fw qseq_rc : CompDNA) (hpos : ∀ t, 0 ≤ S t) :
    (kmersPrefixState db cm m0 S qseq_fw qseq_rc).bests.Nodup := by
  unfold kmersPrefixState
  exact kmersTwoPass_nodup db _ _ S hpos

theorem intCast_mem_map {l : List Nat} {t : Nat} :
    ((t : Int) ∈ l.map (fun u : Nat => (u : Int))) ↔ t ∈ l := by
  rw [List.mem_map]
  constructor
  · rintro ⟨u, hu, he⟩
    exact (Nat.cast_inj.mp he) ▸ hu
  · intro h
    exact ⟨t, h, rfl⟩

theorem pos_intCast_mem_append {l r : List Nat} {t : Nat} (ht : 0 < t) :
    ((t : Int) ∈ l.map (fun u : Nat => (u : Int)) ++ r.map (fun u : Nat => -(u : Int))) ↔
      t ∈ l := by
  rw [List.mem_append, intCast_mem_map]
  constructor
  · rintro (h | h)
    · exact h
    · rcases List.mem_map.mp h with ⟨u, _, he⟩
      exfalso
      omega
  · exact Or.inl

theorem neg_intCast_mem_append {l r : List Nat} {t : Nat} (ht : 0 < t) :
    ((-(t : Int)) ∈ l.map (fun u : Nat => (u : Int)) ++ r.map (fun u : Nat => -(u : Int))) ↔
      t ∈ r := by
  rw [List.mem_append]
  constructor
  · rintro (h | h)
    · rcases List.mem_map.mp h with ⟨u, _, he⟩
      exfalso
      omega
    · rcases List.mem_map.mp h with ⟨u, hu, he⟩
      have heq : u = t := by omega
      exact heq ▸ hu
  · intro h
    exact Or.inr (List.mem_map.mpr ⟨t, h, rfl⟩)

/-- C3: the corrected threshold rule of reassign_kmers — for every database,
minimizer machinery, non-negative Score scratch and input pair, a template t
is returned iff it entered the candidate bucket and its accumulated
pre-sweep score reaches the sweep threshold, which is
template_lengths[DB_size + t] in prefix mode (not template_lengths[t] as
claimed) and template_lengths[t] - kmersize + 1 otherwise; in the two-pass
mode forward survivors are returned as t and reverse survivors as -t. -/
theorem claimC3_threshold {M : Type} (db : HashKMA) (cm : Cmer M) (m0 : M)
    (Score : Nat → Int) (template_lengths : Nat → Int)
    (qseq_fw qseq_rc : CompDNA) (hpos : ∀ t, 0 ≤ Score t) (t : Nat) :
    C3Post db cm m0 Score template_lengths qseq_fw qseq_rc t := by
  unfold C3Post
  refine ⟨?_, ?_, ?_⟩
  · intro hp
    have hres : (reassign_kmers db cm m0 Score template_lengths qseq_fw qseq_rc).2 =
        ((kmersSweep (fun u => template_lengths (db.DB_size + u))
          (kmersPrefixState db cm m0 Score qseq_fw qseq_rc).Score
          (kmersPrefixState db cm m0 Score qseq_fw qseq_rc).bests).2).map
          (fun u : Nat => (u : Int)) := by
      unfold reassign_kmers
      rw [if_pos hp]
    rw [hres, intCast_mem_map]
    exact kmersSweep_mem _ _ _
      (kmersPrefixState_nodup db cm m0 Score qseq_fw qseq_rc hpos) t
  · intro hp0 hq
    have hres : (reassign_kmers db cm m0 Score template_lengths qseq_fw qseq_rc).2 =
        ((kmersFwSwept db cm Score template_lengths qseq_fw).2).map
          (fun u : Nat => (u : Int)) := by
      unfold reassign_kmers
      rw [if_neg (not_not_intro hp0), if_pos hq]
    rw [hres, intCast_mem_map]
    show t ∈ (kmersSweep (kmersThr db template_lengths)
        (kmersPassState db cm (kmersSeqend db qseq_fw) Score qseq_fw).Score
        (kmersPassState db cm (kmersSeqend db qseq_fw) Score qseq_fw).bests).2 ↔ _
    exact kmersSweep_mem _ _ _
      (kmersPassState_nodup db cm (kmersSeqend db qseq_fw) Score qseq_fw hpos) t
  · intro hp0 hq0 ht
    have hres : (reassign_kmers db cm m0 Score template_lengths qseq_fw qseq_rc).2 =
        ((kmersFwSwept db cm Score template_lengths qseq_fw).2).map
          (fun u : Nat => (u : Int)) ++
        ((kmersRcSwept db cm Score template_lengths qseq_fw qseq_rc).2).map
          (fun u : Nat => -(u : Int)) := by
      unfold reassign_kmers
      rw [if_neg (not_not_intro hp0), if_neg (not_not_intro hq0)]
    constructor
    · rw [hres, pos_intCast_mem_append ht]
      show t ∈ (kmersSweep (kmersThr db template_lengths)
          (kmersPassState db cm (kmersSeqend db qseq_fw) Score qseq_fw).Score
          (kmersPassState db cm (kmersSeqend db qseq_fw) Score qseq_fw).bests).2 ↔ _
      exact kmersSweep_mem _ _ _
        (kmersPassState_nodup db cm (kmersSeqend db qseq_fw) Score qseq_fw hpos) t
    · rw [hres, neg_intCast_mem_append ht]
      show t ∈ (kmersSweep (kmersThr db template_lengths)
          (kmersPassState db cm (kmersSeqend db qseq_fw)
            ((kmersFwSwept db cm Score template_lengths qseq_fw).1) qseq_rc).Score
          (kmersPassState db cm (kmersSeqend db qseq_fw)
            ((kmersFwSwept db cm Score template_lengths qseq_fw).1) qseq_rc).bests).2 ↔ _
      exact kmersSweep_mem _ _ _
        (kmersPassState_nodup db cm (kmersSeqend db qseq_fw)
          ((kmersFwSwept db cm Score template_lengths qseq_fw).1) qseq_rc
          (kmersFwSwept_nonneg db cm Score template_lengths qseq_fw hpos)) t

/-- Counterexample for C3: a prefix-mode database with DB_size 2 where
template 1 accumulates score 1 and template_lengths[1] = 1, so the claimed
threshold template_lengths[t] is met, yet the sweep reads
template_lengths[DB_size + 1] = 100 and removes the id: the returned
bestTemplates list is empty. -/
theorem claimC3_counterexample :
    (⟨2, 1, 0, 1, 0, 1, fun c => if c = 1 then some 7 else none,
        fun v => if v = 7 then [1] else []⟩ : HashKMA).pref_len ≠ 0 ∧
    (kmersPrefixState ⟨2, 1, 0, 1, 0, 1, fun c => if c = 1 then some 7 else none,
        fun v => if v = 7 then [1] else []⟩
      (⟨fun _ => (), fun _ k => ((), k), fun _ k => ((), k)⟩ : Cmer Unit) ()
      (fun _ => 0) ⟨[0, 1], []⟩ ⟨[2, 3], []⟩).Score 1 = 1 ∧
    ((fun n => if n = 1 then (1 : Int) else if n = 3 then 100 else 0) 1 ≤ 1) ∧
    (1 : Int) ∉ (reassign_kmers ⟨2, 1, 0, 1, 0, 1,
        fun c => if c = 1 then some 7 else none,
        fun v => if v = 7 then [1] else []⟩
      (⟨fun _ => (), fun _ k => ((), k), fun _ k => ((), k)⟩ : Cmer Unit) ()
      (fun _ => 0) (fun n => if n = 1 then 1 else if n = 3 then 100 else 0)
      ⟨[0, 1], []⟩ ⟨[2, 3], []⟩).2 := by
  decide

/-- Witness for C3: the corrected rule at the counterexample instance. -/
theorem claimC3_witness :
    C3Post (⟨2, 1, 0, 1, 0, 1, fun c => if c = 1 then some 7 else none,
        fun v => if v = 7 then [1] else []⟩ : HashKMA)
      (⟨fun _ => (), fun _ k => ((), k), fun _ k => ((), k)⟩ : Cmer Unit) ()
      (fun _ => 0) (fun n => if n = 1 then 1 else if n = 3 then 100 else 0)
      ⟨[0, 1], []⟩ ⟨[2, 3], []⟩ 1 :=
  claimC3_threshold _ _ _ _ _ _ _ (fun _ => le_refl 0) 1

/-! ### ef.c lemmas: the chunk walk and its sums -/

theorem range1_append (s m n : Nat) :
    List.range' s m ++ List.range' (s + m) n = List.range' s (m + n) := by
  have h := List.range'_append s m n 1
  rw [Nat.one_mul] at h
  rw [Nat.add_comm m n]
  exact h

theorem efStep_deletionSum {asm : Nat → Assembly} {nuc : Nat → Nat}
    {t_len : Nat} {hv : Nat → Bool} {st : EFState} {pos : Nat}
    (h : pos < t_len) :
    (efStep asm nuc t_len hv st pos).deletionSum =
      st.deletionSum + (asm pos).counts 5 := by
  unfold efStep
  rw [if_pos h]

theorem efStep_snpSum {asm : Nat → Assembly} {nuc : Nat → Nat}
    {t_len : Nat} {hv : Nat → Bool} {st : EFState} {pos : Nat}
    (h : pos < t_len) :
    (efStep asm nuc t_len hv st pos).snpSum =
      st.snpSum + (efDepth asm pos - (asm pos).counts (nuc pos)) := by
  unfold efStep
  rw [if_pos h]

theorem efStep_insertSum {asm : Nat → Assembly} {nuc : Nat → Nat}
    {t_len : Nat} {hv : Nat → Bool} {st : EFState} {pos : Nat}
    (h : pos < t_len) :
    (efStep asm nuc t_len hv st pos).insertSum = st.insertSum := by
  unfold efStep
  rw [if_pos h]

theorem efFold_sums (asm : Nat → Assembly) (nuc : Nat → Nat) (t_len : Nat)
    (hv : Nat → Bool) : ∀ (d pos : Nat) (st : EFState),
    (∀ p ∈ List.range' pos d, p < t_len) →
    (List.foldl (efStep asm nuc t_len hv) st (List.range' pos d)).deletionSum =
      st.deletionSum +
        ((List.range' pos d).map (fun p => (asm p).counts 5)).sum ∧
    (List.foldl (efStep asm nuc t_len hv) st (List.range' pos d)).snpSum =
      st.snpSum + ((List.range' pos d).map
        (fun p => efDepth asm p - (asm p).counts (nuc p))).sum ∧
    (List.foldl (efStep asm nuc t_len hv) st (List.range' pos d)).insertSum =
      st.insertSum := by
  intro d
  induction d with
  | zero => intro pos st _; exact ⟨by simp, by simp, rfl⟩
  | succ d ih =>
    intro pos st hlt
    have h0 : pos < t_len := hlt pos (by
      rw [List.range'_succ]
      exact List.mem_cons_self _ _)
    obtain ⟨ih1, ih2, ih3⟩ := ih (pos + 1) (efStep asm nuc t_len hv st pos)
      (fun p hp => hlt p (by
        rw [List.range'_succ]
        exact List.mem_cons_of_mem _ hp))
    rw [List.range'_succ]
    refine ⟨?_, ?_, ?_⟩
    · rw [List.foldl_cons, List.map_cons, List.sum_cons, ih1, efStep_deletionSum h0]
      omega
    · rw [List.foldl_cons, List.map_cons, List.sum_cons, ih2, efStep_snpSum h0]
      omega
    · rw [List.foldl_cons, ih3, efStep_insertSum h0]

theorem efWalkGo_range (asm : Nat → Assembly) (nuc : Nat → Nat) (t_len : Nat)
    (hv : Nat → Bool) (hchain : ∀ p, (asm p).next = p + 1) :
    ∀ (fuel d pos e : Nat) (st : EFState), d < fuel → e = pos + d →
    efWalkGo asm nuc t_len hv e fuel pos st =
      some (List.foldl (efStep asm nuc t_len hv) st (List.range' pos d)) := by
  intro fuel
  induction fuel with
  | zero => intro d pos e st h _; omega
  | succ fuel ih =>
    intro d pos e st h he
    subst he
    cases d with
    | zero =>
      unfold efWalkGo
      rw [if_pos (by omega)]
      rfl
    | succ d =>
      unfold efWalkGo
      rw [if_neg (by omega), hchain pos, if_neg (Nat.succ_ne_zero pos),
        ih d (pos + 1) (pos + (d + 1)) (efStep asm nuc t_len hv st pos)
          (by omega) (by omega),
        List.range'_succ, List.foldl_cons]

theorem efChunksGo_zero (asm : Nat → Assembly) (nuc : Nat → Nat) (t_len : Nat)
    (hv : Nat → Bool) : ∀ (fuel nxt : Nat) (st : EFState), 0 < fuel →
    efChunksGo asm nuc t_len hv fuel nxt 0 st = some st := by
  intro fuel nxt st h
  cases fuel with
  | zero => omega
  | succ f =>
    unfold efChunksGo
    rw [if_pos rfl]

theorem efChunksGo_spec (asm : Nat → Assembly) (nuc : Nat → Nat) (t_len : Nat)
    (hv : Nat → Bool) (hchain : ∀ p, (asm p).next = p + 1)
    (ht : t_len + 8112 < 2 ^ 31) :
    ∀ (fuel nxt : Nat) (st : EFState), nxt < t_len → t_len + 8114 ≤ nxt + fuel →
    efChunksGo asm nuc t_len hv fuel nxt 8112 st =
      some (List.foldl (efStep asm nuc t_len hv) st
        (List.range' nxt (t_len - 1 - nxt))) := by
  intro fuel
  induction fuel with
  | zero => intro nxt st h1 h2; omega
  | succ fuel ih =>
    intro nxt st h1 h2
    unfold efChunksGo
    rw [if_neg (by omega : ¬(8112 = 0)), if_pos h1]
    by_cases hf : t_len ≤ nxt + 8112
    · rw [if_pos hf, if_pos hf,
        efWalkGo_range asm nuc t_len hv hchain fuel (t_len - 1 - nxt) nxt
          (t_len - 1) st (by omega) (by omega)]
      show efChunksGo asm nuc t_len hv fuel
          (if nxt + 8112 < 2 ^ 31 then nxt + 8112 else t_len) 0
          (List.foldl (efStep asm nuc t_len hv) st
            (List.range' nxt (t_len - 1 - nxt))) =
        some (List.foldl (efStep asm nuc t_len hv) st
          (List.range' nxt (t_len - 1 - nxt)))
      exact efChunksGo_zero asm nuc t_len hv fuel _ _ (by omega)
    · rw [if_neg hf, if_neg hf,
        efWalkGo_range asm nuc t_len hv hchain fuel 8112 nxt (nxt + 8112) st
          (by omega) rfl]
      show efChunksGo asm nuc t_len hv fuel
          (if nxt + 8112 < 2 ^ 31 then nxt + 8112 else t_len) 8112
          (List.foldl (efStep asm nuc t_len hv) st (List.range' nxt 8112)) =
        some (List.foldl (efStep asm nuc t_len hv) st
          (List.range' nxt (t_len - 1 - nxt)))
      rw [if_pos (by omega), ih (nxt + 8112) _ (by omega) (by omega),
        ← List.foldl_append]
      have happ : List.range' nxt 8112 ++
          List.range' (nxt + 8112) (t_len - 1 - (nxt + 8112)) =
          List.range' nxt (t_len - 1 - nxt) := by
        rw [range1_append]
        have hd : 8112 + (t_len - 1 - (nxt + 8112)) = t_len - 1 - nxt := by omega
        rw [hd]
      rw [happ]

/-- C7 (corrected): for a single-worker run over a standard matrix chain
(next links the template columns consecutively), getExtendedFeatures
accumulates counts[5] into deletionSum and depthUpdate -
counts[getNuc(seq, p)] into snpSum for every template position p in
[0, t_len - 1) — NOT [0, t_len) as claimed: the final chunk sets
end = t_len - 1 and the walk stops when pos reaches end before processing
it, so the last template position is never accumulated.  insertSum stays 0
on an insertion-free chain. -/
theorem claimC7_extended_stats (asm : Nat → Assembly) (nuc : Nat → Nat)
    (t_len : Nat) (hv : Nat → Bool)
    (hchain : ∀ p, (asm p).next = p + 1) (hlen : 0 < t_len)
    (ht : t_len + 8112 < 2 ^ 31) :
    ∃ st : EFState,
      getExtendedFeatures asm nuc t_len hv (t_len + 8114) = some st ∧
      st.deletionSum =
        ((List.range (t_len - 1)).map (fun p => (asm p).counts 5)).sum ∧
      st.snpSum = ((List.range (t_len - 1)).map
        (fun p => efDepth asm p - (asm p).counts (nuc p))).sum ∧
      st.insertSum = 0 := by
  have hrun := efChunksGo_spec asm nuc t_len hv hchain ht (t_len + 8114) 0
    ⟨0, 0, 0, 0, 0⟩ hlen (by omega)
  obtain ⟨h1, h2, h3⟩ := efFold_sums asm nuc t_len hv (t_len - 1 - 0) 0
    ⟨0, 0, 0, 0, 0⟩ (fun p hp => by
      have := List.mem_range'_1.mp hp
      omega)
  rw [Nat.sub_zero] at hrun h1 h2
  refine ⟨_, hrun, ?_, ?_, h3⟩
  · rw [h1, List.range_eq_range']
    exact Nat.zero_add _
  · rw [h2, List.range_eq_range']
    exact Nat.zero_add _

/-- Counterexample for C7: with t_len = 1 and every count equal to 1 at
every slot, the claimed sums over [0, t_len) would give deletionSum = 1,
but the function returns with all accumulators still zero — position 0 is
the excluded end = t_len - 1. -/
theorem claimC7_counterexample :
    getExtendedFeatures (fun p => ⟨fun _ => 1, p + 1⟩) (fun _ => 0) 1
        (fun _ => false) 3 = some ⟨0, 0, 0, 0, 0⟩ ∧
    ((List.range 1).map
      (fun p => ((fun q : Nat => (⟨fun _ => 1, q + 1⟩ : Assembly)) p).counts 5)).sum
      = 1 :=
  ⟨rfl, rfl⟩

/-- Witness for C7: the corrected sums at a concrete two-column chain. -/
theorem claimC7_witness :
    ∃ st : EFState,
      getExtendedFeatures (fun p : Nat => (⟨fun _ => 2, p + 1⟩ : Assembly))
          (fun _ => 0) 2 (fun _ => false) (2 + 8114) = some st ∧
      st.deletionSum = ((List.range (2 - 1)).map
        (fun p => ((fun q : Nat => (⟨fun _ => 2, q + 1⟩ : Assembly)) p).counts 5)).sum ∧
      st.snpSum = ((List.range (2 - 1)).map
        (fun p => efDepth (fun q : Nat => (⟨fun _ => 2, q + 1⟩ : Assembly)) p -
          ((fun q : Nat => (⟨fun _ => 2, q + 1⟩ : Assembly)) p).counts
            ((fun _ : Nat => 0) p))).sum ∧
      st.insertSum = 0 :=
  claimC7_extended_stats _ _ 2 _ (fun p => rfl) (by omega) (by omega)

/-! ### reassign_template: the no-match path -/

theorem rtLoopGo_fail (lengths : Nat → Int) (mseq : Int → Option Int)
    (hm : ∀ t, mseq t = some (-1)) :
    ∀ (fuel : Nat) (B : List Int) (n : Nat) (t0 : Int),
    B.getD 0 0 = (n : Int) → n < fuel →
    ∃ r, rtLoopGo lengths mseq fuel t0 (-1) B = some (0, -1, r) := by
  intro fuel
  induction fuel with
  | zero => intro B n t0 _ h; omega
  | succ fuel ih =>
    intro B n t0 hn h
    unfold rtLoopGo
    rw [if_pos (by omega : (-1 : Int) < 0)]
    by_cases hp : (reassign_popheap lengths B).1 = 0
    · rw [if_pos hp]
      exact ⟨_, rfl⟩
    · rw [if_neg hp, hm]
      have hcne : B.getD 0 0 ≠ 0 := by
        intro h0
        exact hp (by rw [reassign_popheap_empty lengths h0])
      have hn0 : n ≠ 0 := by
        intro h0
        subst h0
        exact hcne (by simpa using hn)
      cases n with
      | zero => exact absurd rfl hn0
      | succ m =>
        have hc2 : ((reassign_popheap lengths B).2).getD 0 0 = (m : Int) := by
          rw [reassign_popheap_count lengths hcne, hn]
          push_cast
          ring
        exact ih (reassign_popheap lengths B).2 m _ hc2 (by omega)

theorem rtMatch_fail (pref pref_len : Nat) (qc qrc : CompDNA)
    (loadseq : Int → CompDNA) (fuelM : Nat)
    (hfail : ∀ t, reassign_matchseqs fuelM qc (loadseq t) = some (-1) ∧
      reassign_matchseqs fuelM qrc (loadseq t) = some (-1)) (t : Int) :
    rtMatch pref pref_len qc qrc loadseq fuelM t = some (-1) := by
  unfold rtMatch
  by_cases hp : pref ≠ 0 ∨ pref_len ≠ 0
  · rw [if_pos hp, (hfail t).1]
    show (if (-1 : Int) < 0 then reassign_matchseqs fuelM qrc (loadseq t)
      else some (-1)) = some (-1)
    rw [if_pos (by omega), (hfail t).2]
  · rw [if_neg hp]
    by_cases ht : 0 < t
    · rw [if_pos ht, (hfail t).1]
    · rw [if_neg ht, (hfail t).2]

/-- C2: no-reassignment atomicity — when reassign_matchseqs answers -1 on
both strands for every candidate, reassign_template returns 0 and hands
back the AssemInfo matrix and the Assem consensus exactly as they were
passed in: the mutation path (assemble_rc, reassign_matrix_offset,
getExtendedFeatures, nameLoad) is reached only after some candidate has
matched. -/
theorem claimC2_atomicity {M A B : Type} (db : HashKMA) (cm : Cmer M) (m0 : M)
    (Score : Nat → Int) (lengths : Nat → Int) (qc qrc : CompDNA)
    (loadseq : Int → CompDNA) (mutate : A → B → Int → Int → A × B)
    (matrix : A) (assem : B) (fuelM : Nat)
    (hfail : ∀ t, reassign_matchseqs fuelM qc (loadseq t) = some (-1) ∧
      reassign_matchseqs fuelM qrc (loadseq t) = some (-1)) :
    reassign_template db cm m0 Score lengths qc qrc loadseq mutate matrix
      assem fuelM = some (0, matrix, assem) := by
  obtain ⟨r, hr⟩ := rtLoopGo_fail lengths
    (rtMatch db.pref db.pref_len qc qrc loadseq fuelM)
    (rtMatch_fail db.pref db.pref_len qc qrc loadseq fuelM hfail)
    ((reassign_kmers db cm m0 Score lengths qc qrc).2.length + 1)
    (reassign_buildheap lengths
      (((reassign_kmers db cm m0 Score lengths qc qrc).2.length : Int) ::
        (reassign_kmers db cm m0 Score lengths qc qrc).2)).1
    (reassign_kmers db cm m0 Score lengths qc qrc).2.length 0
    (by rw [reassign_buildheap_count]; rfl) (by omega)
  unfold reassign_template
  rw [hr]
  show (if (0 : Int) = 0 then some (0, matrix, assem)
    else some (if (0 : Int) < 0 then -(0 : Int) else 0,
      (mutate matrix assem 0 (-1)).1, (mutate matrix assem 0 (-1)).2)) =
    some (0, matrix, assem)
  rw [if_pos rfl]

/-- Witness for C2: a concrete instance where the short candidate CG never
places in the consensus ACGT on either strand, so the template and the
10/20 scalars standing for matrix and consensus come back unchanged. -/
theorem claimC2_witness :
    reassign_template (⟨1, 2, 0, 0, 0, 1, fun _ => none, fun _ => []⟩ : HashKMA)
      (⟨fun _ => (), fun _ k => ((), k), fun _ k => ((), k)⟩ : Cmer Unit) ()
      (fun _ => 0) (fun _ => 0) ⟨[0, 1, 2, 3], []⟩ ⟨[0, 1, 2, 3], []⟩
      (fun _ => ⟨[1, 2], []⟩) (fun a b _ _ => (a, b)) (10 : Nat) (20 : Nat) 5 =
      some (0, 10, 20) :=
  claimC2_atomicity _ _ _ _ _ _ _ _ _ _ _ _ (fun t => ⟨by decide, by decide⟩)

/-! ### reassign_matrix_offset: termination scalars and the broken list -/

theorem moLoopGo_alnLen (t_len : Nat) (tnuc qS : Nat → Nat) :
    ∀ (fuel : Nat) (st : MOState) (r : MORegs) (st2 : MOState) (r2 : MORegs),
    moLoopGo t_len tnuc qS fuel st r = some (st2, r2) → r2.alnLen = t_len := by
  intro fuel
  induction fuel with
  | zero => intro st r st2 r2 h; exact Option.noConfusion h
  | succ fuel ih =>
    intro st r st2 r2 h
    unfold moLoopGo at h
    by_cases ha : r.alnLen = t_len
    · rw [if_pos ha] at h
      have h1 := Option.some.inj h
      have h2 : r = r2 := congrArg Prod.snd h1
      rw [← h2]
      exact ha
    · rw [if_neg ha] at h
      by_cases hq : qS r.i ≠ 45
      · rw [if_pos hq] at h
        exact ih _ _ _ _ h
      · rw [if_neg hq] at h
        cases hm : moInsertion t_len st r with
        | none => rw [hm] at h; exact Option.noConfusion h
        | some p => rw [hm] at h; exact ih _ _ _ _ h

/-- C6 (corrected, scalar part): whenever reassign_matrix_offset
terminates it has published aligned_assem->len = t_len, aln_len = t_len
and cover = t_len, because the basecall loop exits only once aln_len
reaches t_len.  The structural clause of the claim — the list from slot 0
holding exactly t_len non-gap template columns, every live node reachable
and no free node reachable — does not hold on every terminating run (see
the counterexample), so only the scalar postcondition is unconditional. -/
theorem claimC6_rewriter (st0 : MOState) (qS : Nat → Nat) (offset : Int)
    (tnuc : Nat → Nat) (t_len : Nat) (fuel : Nat)
    (out : MOState × Nat × Nat × Nat)
    (h : reassign_matrix_offset st0 qS offset tnuc t_len fuel = some out) :
    out.2.1 = t_len ∧ out.2.2.1 = t_len ∧ out.2.2.2 = t_len := by
  unfold reassign_matrix_offset at h
  split at h
  next => exact Option.noConfusion h
  next ip =>
    split at h
    next => exact Option.noConfusion h
    next sr hsr =>
      split at h
      next => exact Option.noConfusion h
      next np hnp =>
        have h2 := Option.some.inj h
        have h3 : sr.2.alnLen = t_len :=
          moLoopGo_alnLen t_len tnuc qS fuel _ _ sr.1 sr.2 hsr
        rw [← h2]
        exact ⟨h3, h3, rfl⟩

/-- Counterexample for C6: a terminating run of the rewriter whose final
list from slot 0 visits only 2 of the t_len = 3 template slots.  The
input chain re-enters the template area (0 → 2), the insertion column
parks its node at slot 2, the template write for column 2 later clobbers
that slot, and the published list 0 → 2 skips template column 1 — which
remains live at slot 1 (matrix len is 4) yet unreachable from the head.
The run terminates normally with the scalars (3, 3, 3). -/
theorem claimC6_counterexample :
    C6Chain 3 10 (reassign_matrix_offset
      ⟨fun k => ⟨fun _ => 0, if k = 0 then 2 else if k = 2 then 5
          else if k = 5 then 6 else 0⟩, 7, 100,
        fun i => if i = 0 then 65 else if i = 1 then 45
          else if i = 2 then 65 else if i = 3 then 65 else 0, 0, 0⟩
      (fun i => if i = 1 then 45 else if i < 4 then 65 else 0)
      0 (fun _ => 0) 3 10) = some 2 ∧ (2 : Nat) ≠ 3 :=
  ⟨rfl, by omega⟩

/-- Witness for C6: the scalar postcondition at the counterexample
input. -/
theorem claimC6_witness :
    ∃ out, reassign_matrix_offset
      ⟨fun k => ⟨fun _ => 0, if k = 0 then 2 else if k = 2 then 5
          else if k = 5 then 6 else 0⟩, 7, 100,
        fun i => if i = 0 then 65 else if i = 1 then 45
          else if i = 2 then 65 else if i = 3 then 65 else 0, 0, 0⟩
      (fun i => if i = 1 then 45 else if i < 4 then 65 else 0)
      0 (fun _ => 0) 3 10 = some out ∧
      (out.2.1 = 3 ∧ out.2.2.1 = 3 ∧ out.2.2.2 = 3) :=
  ⟨_, rfl, claimC6_rewriter
    ⟨fun k => ⟨fun _ => 0, if k = 0 then 2 else if k = 2 then 5
        else if k = 5 then 6 else 0⟩, 7, 100,
      fun i => if i = 0 then 65 else if i = 1 then 45
        else if i = 2 then 65 else if i = 3 then 65 else 0, 0, 0⟩
    (fun i => if i = 1 then 45 else if i < 4 then 65 else 0)
    0 (fun _ => 0) 3 10 _ rfl⟩

end EcoliTyper
